import Mathlib

/-!
Verification development for `Tools/sanitize_avif.py` (AOMediaCodec/av1-avif).

We shallowly embed the parts of the tool that the checked properties are
about: the top-level box parser and verbatim rewriter (`parse_box_sequence`,
`Box.from_reader`, `AVIFWriter.write`), the offset-patching engine
(`PlaceholderFileOffset`, the mdat search loop inside `AVIFWriter.write`),
the item-property graph (`ParsedFile.get_existing_property_if_present`,
`_add_property_if_needed`, `add_property_association`,
`drop_unused_item_properties`, `get_item_properties_for_item`) and the AV1
sequence-header bit decoder (`AV1ElementaryStream._parse_av1_sequence_header_obu`).

Files are byte lists (each entry a value `< 256`); fallible code paths
(Python `assert`, `IndexError`, `KeyError`, `TypeError`) are modelled with
`Option` or dedicated result types.
-/

-- ===========================================
-- Byte utilities
-- ===========================================

/-- Big-endian value of the `n` bytes of `data` starting at `pos`; the
denotation of `struct.unpack` in `FileReader.read_integer_of_size`. -/
def beValue (data : List Nat) (pos n : Nat) : Nat :=
  ((data.drop pos).take n).foldl (fun acc b => acc * 256 + b) 0

/-- Embedding of `FileReader.read_integer_of_size`: `read_data` asserts
`position + nbytes <= end` ("Box/data ended prematurely"), then the bytes are
decoded big-endian. `none` models the assertion failure. -/
def read_integer_of_size (data : List Nat) (pos stop n : Nat) : Option Nat :=
  if pos + n ≤ stop then some (beValue data pos n) else none

/-- Big-endian encoding of `v` into `w` bytes; the denotation of
`struct.pack` in `write_integer_of_size` (callers check `v < 2 ^ (8 * w)`). -/
def beBytes : Nat → Nat → List Nat
  | _, 0 => []
  | v, w + 1 => beBytes (v / 256) w ++ [v % 256]

/-- Embedding of a seek-and-write into an already produced output stream:
seek to `pos`, write `bytes`, leaving everything else unchanged. -/
def overwrite (out : List Nat) (pos : Nat) (bytes : List Nat) : List Nat :=
  out.take pos ++ bytes ++ out.drop (pos + bytes.length)

-- ===========================================
-- Box parsing (`Box.from_reader`, `parse_box_sequence` at top level)
-- ===========================================

/-- The portion of a parsed `Box` that the writer uses for a clean
(not-to-be-rewritten) box: its type code (4 raw bytes), its `start` and its
`size`.  `Box.__init__` sets `needs_rewrite = False`; parsing never calls
`mark_for_rewrite`, so a freshly parsed tree is entirely clean. -/
structure BoxRange where
  typ : List Nat
  start : Nat
  size : Nat
  needs_rewrite : Bool
deriving DecidableEq

/-- End offset of the box, `Box.end = start + size`. -/
def BoxRange.stop (b : BoxRange) : Nat := b.start + b.size

/-- Byte code of the box type "ftyp". -/
def FTYP : List Nat := [102, 116, 121, 112]

/-- Byte code of the box type "moof" (explicitly unsupported:
`parse_unsupported_box` raises for it). -/
def MOOF : List Nat := [109, 111, 111, 102]

/-- Embedding of `Box.from_reader`: read a 4-byte size and 4-byte type,
honour the extended (size = 1) and to-end-of-parent (size = 0) forms exactly
as the source computes them, and assert `size >= 8`.  Note the source line
for the zero case is literally `size = end - size` (with `size` known to be
0), which this embedding reproduces as `stop - sizeField`. -/
def from_reader (data : List Nat) (pos stop : Nat) : Option BoxRange :=
  match read_integer_of_size data pos stop 4 with
  | none => none
  | some sizeField =>
    -- read_string(end, 4) for the type: 4 bytes, decode failures are mapped
    -- to a "CORRUPT" string rather than None, so only the bounds check fails.
    if pos + 8 ≤ stop then
      match (if sizeField = 1 then read_integer_of_size data (pos + 8) stop 8
             else if sizeField = 0 then some (stop - sizeField)
             else some sizeField) with
      | none => none
      | some size =>
        if size ≥ 8 then
          some { typ := (data.drop (pos + 4)).take 4, start := pos, size := size,
                 needs_rewrite := false }
        else none
    else none

/-- Embedding of the `parse_box_sequence` loop at the top level of the file
(`box_map = MAP_TOP_LEVEL`).  Each iteration reads a header with
`from_reader`, lets the recipe parse the body, and then does
`reader.skip_to(box.end)`, so only the box geometry matters for the loop;
body parsers read strictly inside the box and can only fail (every failure
is a fatal assert), which this model over-approximates by succeeding, except
for the explicitly unsupported "moof" type whose recipe always raises.
`fuel` bounds the recursion; each step advances `pos` by at least 8, so
`stop` steps are always enough. -/
def parse_box_sequence_go (data : List Nat) (stop : Nat) :
    Nat → Nat → Option (List BoxRange)
  | 0, pos => if pos + 8 ≤ stop then none else some []
  | fuel + 1, pos =>
    if pos + 8 ≤ stop then
      match from_reader data pos stop with
      | none => none
      | some box =>
        if box.typ = MOOF then none
        else
          match parse_box_sequence_go data stop fuel box.stop with
          | none => none
          | some rest => some (box :: rest)
    else some []

/-- Top-level `parse_box_sequence(reader, reader.size, lvl, box_map=MAP_TOP_LEVEL)`. -/
def parse_box_sequence_top (data : List Nat) : Option (List BoxRange) :=
  parse_box_sequence_go data data.length (data.length + 1) 0

/-- Embedding of `ParsedFile.__init__`: require more than 8 bytes, a first
box size greater than 8 and a leading "ftyp" type, then parse the whole file
as a box sequence. -/
def parsed_file (data : List Nat) : Option (List BoxRange) :=
  if data.length > 8 then
    match read_integer_of_size data 0 data.length 4 with
    | none => none
    | some boxSize =>
      if boxSize > 8 then
        if (data.drop 4).take 4 = FTYP then parse_box_sequence_top data else none
      else none
  else none

-- ===========================================
-- Box rewriting (`AVIFWriter.write`, zero-mutation path)
-- ===========================================

/-- Embedding of `FileReader.copy_data_to_destination`: the source streams
the range in 32768-byte chunks to bound memory; byte-wise it copies exactly
the `count` bytes starting at `offset`. -/
def copy_data_to_destination (data : List Nat) (offset count : Nat) : List Nat :=
  (data.drop offset).take count

/-- The body of the `AVIFWriter.write` output loop restricted to clean
boxes: each box with `needs_rewrite = False` is copied verbatim from its
original byte range. -/
def write_clean_boxes (data : List Nat) : List BoxRange → List Nat
  | [] => []
  | b :: rest => copy_data_to_destination data b.start b.size ++ write_clean_boxes data rest

/-- Embedding of `AVIFWriter.write` when no box is marked `needs_rewrite`:
`boxes_have_changed()` is false so no offset box is dirtied, every box takes
the verbatim-copy branch, no placeholder offsets are recorded, and the final
placeholder-patching loop runs zero times.  A dirty box would instead invoke
its type-specific serializer, which is outside the scope of this model
(hence `none`). -/
def avifwriter_write (data : List Nat) (boxes : List BoxRange) : Option (List Nat) :=
  if boxes.any (·.needs_rewrite) then none
  else some (write_clean_boxes data boxes)

/-- End position of the last box of the chain when the chain starts at `pos`. -/
def chain_stop (pos : Nat) : List BoxRange → Nat
  | [] => pos
  | b :: rest => chain_stop b.stop rest

theorem write_clean_of_go (data : List Nat) :
    ∀ (fuel pos : Nat) (bs : List BoxRange),
      parse_box_sequence_go data data.length fuel pos = some bs →
      chain_stop pos bs = data.length →
      write_clean_boxes data bs = data.drop pos := by
  intro fuel
  induction fuel with
  | zero =>
    intro pos bs hgo hend
    unfold parse_box_sequence_go at hgo
    by_cases h : pos + 8 ≤ data.length
    · simp [h] at hgo
    · simp [h] at hgo
      subst hgo
      simp [chain_stop] at hend
      simp [write_clean_boxes, hend, List.drop_length]
  | succ n ih =>
    intro pos bs hgo hend
    unfold parse_box_sequence_go at hgo
    by_cases h : pos + 8 ≤ data.length
    · simp only [if_pos h] at hgo
      cases hfr : from_reader data pos data.length with
      | none => rw [hfr] at hgo; exact absurd hgo (by simp)
      | some box =>
        rw [hfr] at hgo
        by_cases hmoof : box.typ = MOOF
        · simp [hmoof] at hgo
        · simp only [if_neg hmoof] at hgo
          cases hrest : parse_box_sequence_go data data.length n box.stop with
          | none => rw [hrest] at hgo; exact absurd hgo (by simp)
          | some rest =>
            rw [hrest] at hgo
            simp only [Option.some.injEq] at hgo
            subst hgo
            have hstart : box.start = pos := by
              unfold from_reader at hfr
              cases hri : read_integer_of_size data pos data.length 4 with
              | none => rw [hri] at hfr; exact absurd hfr (by simp)
              | some sz =>
                rw [hri] at hfr
                by_cases h8 : pos + 8 ≤ data.length
                · simp only [if_pos h8] at hfr
                  cases hsz : (if sz = 1 then read_integer_of_size data (pos + 8) data.length 8
                      else if sz = 0 then some (data.length - sz) else some sz) with
                  | none => rw [hsz] at hfr; exact absurd hfr (by simp)
                  | some s =>
                    rw [hsz] at hfr
                    by_cases hge : s ≥ 8
                    · simp only [if_pos hge, Option.some.injEq] at hfr
                      rw [← hfr]
                    · simp [hge] at hfr
                · simp [h8] at hfr
            have hchain : chain_stop box.stop rest = data.length := by
              simpa [chain_stop] using hend
            have hrec := ih box.stop rest hrest hchain
            simp only [write_clean_boxes, hrec, copy_data_to_destination]
            rw [BoxRange.stop, hstart]
            rw [← List.drop_drop]
            exact List.take_append_drop box.size (data.drop pos)
    · simp only [if_neg h, Option.some.injEq] at hgo
      subst hgo
      simp [chain_stop] at hend
      simp [write_clean_boxes, hend, List.drop_length]

/-- C1: parsing a file (`ParsedFile`) and then writing it (`AVIFWriter.write`)
with zero mutations applied, on a well-formed input (one whose parsed
top-level boxes cover the file up to its end, with no trailing slack),
produces an output byte stream identical to the input bytes. -/
theorem round_trip_unmodified (data : List Nat) (boxes : List BoxRange)
    (hparse : parsed_file data = some boxes)
    (hcover : chain_stop 0 boxes = data.length) :
    avifwriter_write data boxes = some data := by
  have hgo : parse_box_sequence_go data data.length (data.length + 1) 0 = some boxes := by
    unfold parsed_file at hparse
    by_cases hlen : data.length > 8
    · simp only [if_pos hlen] at hparse
      cases hri : read_integer_of_size data 0 data.length 4 with
      | none => rw [hri] at hparse; exact absurd hparse (by simp)
      | some boxSize =>
        rw [hri] at hparse
        by_cases hbs : boxSize > 8
        · simp only [if_pos hbs] at hparse
          by_cases hft : (data.drop 4).take 4 = FTYP
          · simpa [hft, parse_box_sequence_top] using hparse
          · simp [hft] at hparse
        · simp [hbs] at hparse
    · simp [hlen] at hparse
  have hclean : ∀ fuel pos bs, parse_box_sequence_go data data.length fuel pos = some bs →
      bs.any (·.needs_rewrite) = false := by
    intro fuel
    induction fuel with
    | zero =>
      intro pos bs hg
      unfold parse_box_sequence_go at hg
      by_cases h : pos + 8 ≤ data.length
      · simp [h] at hg
      · simp only [if_neg h, Option.some.injEq] at hg; subst hg; rfl
    | succ n ih =>
      intro pos bs hg
      unfold parse_box_sequence_go at hg
      by_cases h : pos + 8 ≤ data.length
      · simp only [if_pos h] at hg
        cases hfr : from_reader data pos data.length with
        | none => rw [hfr] at hg; exact absurd hg (by simp)
        | some box =>
          rw [hfr] at hg
          by_cases hmoof : box.typ = MOOF
          · simp [hmoof] at hg
          · simp only [if_neg hmoof] at hg
            cases hrest : parse_box_sequence_go data data.length n box.stop with
            | none => rw [hrest] at hg; exact absurd hg (by simp)
            | some rest =>
              rw [hrest] at hg
              simp only [Option.some.injEq] at hg
              subst hg
              have hbox : box.needs_rewrite = false := by
                unfold from_reader at hfr
                cases hri : read_integer_of_size data pos data.length 4 with
                | none => rw [hri] at hfr; exact absurd hfr (by simp)
                | some sz =>
                  rw [hri] at hfr
                  by_cases h8 : pos + 8 ≤ data.length
                  · simp only [if_pos h8] at hfr
                    cases hsz : (if sz = 1 then read_integer_of_size data (pos + 8) data.length 8
                        else if sz = 0 then some (data.length - sz) else some sz) with
                    | none => rw [hsz] at hfr; exact absurd hfr (by simp)
                    | some s =>
                      rw [hsz] at hfr
                      by_cases hge : s ≥ 8
                      · simp only [if_pos hge, Option.some.injEq] at hfr
                        rw [← hfr]
                      · simp [hge] at hfr
                  · simp [h8] at hfr
              simp [List.any_cons, hbox, ih box.stop rest hrest]
      · simp only [if_neg h, Option.some.injEq] at hg; subst hg; rfl
  unfold avifwriter_write
  rw [hclean _ _ _ hgo]
  simp only [Bool.false_eq_true, if_false, Option.some.injEq]
  simpa using write_clean_of_go data (data.length + 1) 0 boxes hgo hcover

/-- Witness for C1 on a concrete 16-byte file: a single "ftyp" box of size
16 round-trips byte-identically. -/
theorem round_trip_unmodified_witness :
    avifwriter_write
      [0, 0, 0, 16, 102, 116, 121, 112, 97, 118, 105, 102, 0, 0, 0, 0]
      [⟨[102, 116, 121, 112], 0, 16, false⟩] =
      some [0, 0, 0, 16, 102, 116, 121, 112, 97, 118, 105, 102, 0, 0, 0, 0] :=
  round_trip_unmodified
    [0, 0, 0, 16, 102, 116, 121, 112, 97, 118, 105, 102, 0, 0, 0, 0]
    [⟨[102, 116, 121, 112], 0, 16, false⟩] (by decide) (by decide)

-- ===========================================
-- Expected child count check (`parse_box_sequence`, final lines)
-- ===========================================

/-- Embedding of the final check of `parse_box_sequence`: the source reads

    if expected_box_count is not None and expected_box_count != len(boxes):
        assert expected_box_count != len(boxes), "Error: ..."

so the assert re-checks the condition that guarded it (the outer `if`) and
the inner branch therefore never fails. -/
def expected_box_count_check (expected : Option Nat) (boxes : List BoxRange) :
    Option (List BoxRange) :=
  match expected with
  | none => some boxes
  | some n =>
    if n ≠ boxes.length then
      if n ≠ boxes.length then some boxes else none
    else some boxes

/-- Top-level parse followed by the expected-count check, as a call of
`parse_box_sequence` with a non-None `expected_box_count` performs it. -/
def parse_box_sequence_counted (data : List Nat) (expected : Option Nat) :
    Option (List BoxRange) :=
  match parse_box_sequence_top data with
  | none => none
  | some boxes => expected_box_count_check expected boxes

/-- C2 (code bug): the expected-box-count check never fails.  For every
expected count and every box list it returns the boxes unchanged, and on a
concrete file containing a single box, parsing with `expected_box_count = 2`
still succeeds and returns the 1-element list instead of raising. -/
theorem expected_box_count_check_is_no_op :
    (∀ (expected : Option Nat) (boxes : List BoxRange),
      expected_box_count_check expected boxes = some boxes) ∧
    parse_box_sequence_counted
      [0, 0, 0, 16, 102, 116, 121, 112, 97, 118, 105, 102, 0, 0, 0, 0] (some 2) =
      some [⟨[102, 116, 121, 112], 0, 16, false⟩] ∧
    (2 : Nat) ≠ ([⟨[102, 116, 121, 112], 0, 16, false⟩] : List BoxRange).length := by
  refine ⟨?_, by decide, by decide⟩
  intro expected boxes
  cases expected with
  | none => rfl
  | some n =>
    unfold expected_box_count_check
    by_cases h : n = boxes.length <;> simp [h]

-- ===========================================
-- Size-zero box headers (`Box.from_reader`)
-- ===========================================

/-- C5 (code bug): a box header whose 4-byte size field is 0 does not make
the box end at the parent range's `end`.  The source computes
`size = end - size` (with `size = 0`), i.e. `size = end`, so `box.end`
becomes `start + end` instead of `end`.  Concretely: a box starting at
offset 8 inside a parent range ending at 32, with size field 0, parses to
`size = 32` and `box.end = 40`, while the claim requires `box.end = 32`
(size 24). -/
theorem size_zero_box_end_bug :
    from_reader
      [0, 0, 0, 16, 102, 116, 121, 112, 0, 0, 0, 0, 109, 100, 97, 116,
       1, 2, 3, 4, 5, 6, 7, 8, 9, 10, 11, 12, 13, 14, 15, 16] 8 32 =
      some ⟨[109, 100, 97, 116], 8, 32, false⟩ ∧
    BoxRange.stop ⟨[109, 100, 97, 116], 8, 32, false⟩ = 40 ∧ (40 : Nat) ≠ 32 := by
  refine ⟨by decide, by decide, by decide⟩

-- ===========================================
-- Offset patching (`PlaceholderFileOffset`, mdat loop in `AVIFWriter.write`)
-- ===========================================

/-- One payload region entry of the `mdat_boxes` list built by
`AVIFWriter.write`: the original byte range of the box in the source file
(`box.start`, `box.end`) and the output position `output.tell()` at which the
box was written (`new_offset`). -/
structure MdatRegion where
  start : Nat
  stop : Nat
  newPos : Nat
deriving DecidableEq

/-- Embedding of `PlaceholderFileOffset` as recorded in `placeholder_offsets`:
its output file position, its byte width (`size`), its own `value`, and the
own values of its dependent placeholders (`dependents`, each created with
this placeholder as `base`). -/
structure Placeholder where
  file_pos : Nat
  size : Nat
  value : Nat
  dep_values : List Nat
deriving DecidableEq

/-- Embedding of `PlaceholderFileOffset.get_offset_list`: with dependents,
the resolved values `base.value + dep.value`; otherwise the own value. -/
def get_offset_list (p : Placeholder) : List Nat :=
  if p.dep_values.length > 0 then p.dep_values.map (fun d => p.value + d)
  else [p.value]

/-- Embedding of `PlaceholderFileOffset.write_delta`: compute
`new_value = value + delta`, assert `0 <= new_value` and
`new_value <= (1 << size * 8) - 1`, then seek to `file_pos` and overwrite the
`size` bytes there with the big-endian encoding of the new value. -/
def write_delta (out : List Nat) (p : Placeholder) (delta : Int) : Option (List Nat) :=
  let new_value : Int := (p.value : Int) + delta
  if 0 ≤ new_value then
    if new_value ≤ 2 ^ (p.size * 8) - 1 then
      some (overwrite out p.file_pos (beBytes new_value.toNat p.size))
    else none
  else none

/-- Check `mdat_box.start <= o < mdat_box.end` for one resolved offset. -/
def offset_in (r : MdatRegion) (o : Nat) : Bool := decide (r.start ≤ o) && decide (o < r.stop)

/-- Result of the mdat search loop in `AVIFWriter.write`. -/
inductive MdatLookup where
  | fatal : MdatLookup
  | crash : MdatLookup
  | use : MdatRegion → MdatLookup
deriving DecidableEq

/-- Embedding of the mdat search loop of `AVIFWriter.write`:

    for mdat_box, new_offset in mdat_boxes:
        offsets_in_mdat = [mdat_box.start <= o < mdat_box.end for o in offsets]
        if all(offsets_in_mdat): break
        assert not any(offsets_in_mdat), "... multiple 'mdat's not supported"
    delta = new_offset - mdat_box.start

A full match breaks with that region; a partial match fails the assert
(`fatal`); when no region matches at all the loop runs to completion and the
loop variables keep their values from the final iteration, so the LAST
region is used; with an empty region list the variables are still None and
the delta computation raises a TypeError (`crash`). -/
def find_mdat (offsets : List Nat) : List MdatRegion → MdatLookup
  | [] => .crash
  | [r] =>
    if offsets.all (offset_in r) then .use r
    else if offsets.any (offset_in r) then .fatal
    else .use r
  | r :: r2 :: rest =>
    if offsets.all (offset_in r) then .use r
    else if offsets.any (offset_in r) then .fatal
    else find_mdat offsets (r2 :: rest)

/-- One iteration of the placeholder-patching loop at the end of
`AVIFWriter.write`: resolve the offsets, find the owning mdat and apply the
delta `new_offset - mdat_box.start` to the recorded output bytes. -/
def patch_placeholder (mdats : List MdatRegion) (out : List Nat) (p : Placeholder) :
    Option (List Nat) :=
  match find_mdat (get_offset_list p) mdats with
  | .fatal => none
  | .crash => none
  | .use r => write_delta out p ((r.newPos : Int) - (r.start : Int))

theorem beBytes_length (v w : Nat) : (beBytes v w).length = w := by
  induction w generalizing v with
  | zero => rfl
  | succ n ih => simp [beBytes, ih]

theorem overwrite_id (out : List Nat) (pos : Nat) (bytes : List Nat)
    (h : (out.drop pos).take bytes.length = bytes) :
    overwrite out pos bytes = out := by
  unfold overwrite
  conv_rhs => rw [← List.take_append_drop pos out]
  rw [← List.drop_drop]
  conv_rhs => rw [← List.take_append_drop bytes.length (out.drop pos)]
  rw [h, List.append_assoc]

theorem find_mdat_use_spec (offsets : List Nat) :
    ∀ (ms : List MdatRegion) (hne : ms ≠ []) (r : MdatRegion),
      find_mdat offsets ms = .use r →
      offsets.all (offset_in r) = true ∨
        ((∀ m ∈ ms, offsets.any (offset_in m) = false) ∧ ms.getLast hne = r) := by
  intro ms
  induction ms with
  | nil => intro hne; exact absurd rfl hne
  | cons r0 rest ih =>
    intro hne r hf
    cases rest with
    | nil =>
      simp only [find_mdat] at hf
      by_cases hall : offsets.all (offset_in r0) = true
      · simp only [hall, if_true, MdatLookup.use.injEq] at hf
        subst hf; exact Or.inl hall
      · simp only [hall, if_false, Bool.false_eq_true] at hf
        by_cases hany : offsets.any (offset_in r0) = true
        · simp [hany] at hf
        · simp only [hany, if_false, Bool.false_eq_true, MdatLookup.use.injEq] at hf
          subst hf
          refine Or.inr ⟨?_, rfl⟩
          intro m hm
          simp only [List.mem_singleton] at hm
          subst hm
          exact Bool.not_eq_true _ ▸ (by simpa using hany)
    | cons r1 rest2 =>
      simp only [find_mdat] at hf
      by_cases hall : offsets.all (offset_in r0) = true
      · simp only [hall, if_true, MdatLookup.use.injEq] at hf
        subst hf; exact Or.inl hall
      · simp only [hall, if_false, Bool.false_eq_true] at hf
        by_cases hany : offsets.any (offset_in r0) = true
        · simp [hany] at hf
        · simp only [hany, if_false, Bool.false_eq_true] at hf
          rcases ih (by simp) r hf with h | ⟨hnone, hlast⟩
          · exact Or.inl h
          · refine Or.inr ⟨?_, ?_⟩
            · intro m hm
              rcases List.mem_cons.mp hm with hm0 | hmrest
              · subst hm0; simpa using hany
              · exact hnone m hmrest
            · rw [List.getLast_cons (by simp)]
              exact hlast

theorem find_mdat_fatal_spec (offsets : List Nat) :
    ∀ (ms : List MdatRegion),
      find_mdat offsets ms = .fatal →
      ∃ m ∈ ms, offsets.any (offset_in m) = true ∧ offsets.all (offset_in m) = false := by
  intro ms
  induction ms with
  | nil => intro hf; simp [find_mdat] at hf
  | cons r0 rest ih =>
    intro hf
    cases rest with
    | nil =>
      simp only [find_mdat] at hf
      by_cases hall : offsets.all (offset_in r0) = true
      · simp [hall] at hf
      · by_cases hany : offsets.any (offset_in r0) = true
        · exact ⟨r0, by simp, hany, Bool.not_eq_true _ ▸ (by simpa using hall)⟩
        · simp [hall, hany] at hf
    | cons r1 rest2 =>
      simp only [find_mdat] at hf
      by_cases hall : offsets.all (offset_in r0) = true
      · simp [hall] at hf
      · by_cases hany : offsets.any (offset_in r0) = true
        · exact ⟨r0, by simp, hany, Bool.not_eq_true _ ▸ (by simpa using hall)⟩
        · simp only [hall, hany, if_false, Bool.false_eq_true] at hf
          rcases ih hf with ⟨m, hm, h1, h2⟩
          exact ⟨m, List.mem_cons_of_mem _ hm, h1, h2⟩

theorem find_mdat_nomatch (offsets : List Nat) (hoff : offsets ≠ []) :
    ∀ (ms : List MdatRegion) (hne : ms ≠ []),
      (∀ m ∈ ms, offsets.any (offset_in m) = false) →
      find_mdat offsets ms = .use (ms.getLast hne) := by
  intro ms
  induction ms with
  | nil => intro hne; exact absurd rfl hne
  | cons r0 rest ih =>
    intro hne hnone
    have hany0 : offsets.any (offset_in r0) = false := hnone r0 (by simp)
    have hall0 : offsets.all (offset_in r0) = false := by
      cases offsets with
      | nil => exact absurd rfl hoff
      | cons o os =>
        simp only [List.any_cons, Bool.or_eq_false_iff] at hany0
        simp [List.all_cons, hany0.1]
    cases rest with
    | nil =>
      simp [find_mdat, hall0, hany0, List.getLast]
    | cons r1 rest2 =>
      simp only [find_mdat, hall0, hany0, if_false, Bool.false_eq_true]
      rw [List.getLast_cons (by simp)]
      exact ih (by simp) (fun m hm => hnone m (List.mem_cons_of_mem _ hm))

/-- C3 counterexample: a placeholder whose resolved value (30) lies in no
mdat region is NOT fatally aborted; the search loop falls through with its
loop variables still bound to the last region, and the placeholder is
silently patched with that region's delta (here 20 - 16 = 4, producing
value 34 at the recorded output position). -/
theorem unmatched_offset_silently_patched :
    offset_in ⟨16, 24, 20⟩ 30 = false ∧
    find_mdat [30] [⟨16, 24, 20⟩] = .use ⟨16, 24, 20⟩ ∧
    patch_placeholder [⟨16, 24, 20⟩] (List.replicate 20 0) ⟨10, 4, 30, []⟩ =
      some [0, 0, 0, 0, 0, 0, 0, 0, 0, 0, 0, 0, 0, 34, 0, 0, 0, 0, 0, 0] := by
  refine ⟨by decide, by decide, by decide⟩

/-- C3 (amended): during offset patching, a placeholder whose resolved
offsets fall partially inside some payload region (in particular offsets
straddling several regions) is a fatal abort, but a placeholder whose
resolved offsets fall inside no region at all is NOT aborted: the search
loop falls through and the placeholder is silently patched using the delta
of the LAST payload region (with no regions at all, the delta computation
crashes on None).  Precisely, for a non-empty region list: a region chosen
by the loop either contains all resolved offsets or was chosen by
fall-through (no region matched any offset and it is the last region); the
fatal abort happens only when some region partially matches; and when no
region matches any offset the loop always falls through to the last
region. -/
theorem find_mdat_characterization (offsets : List Nat) (ms : List MdatRegion)
    (hms : ms ≠ []) (hoff : offsets ≠ []) :
    (∀ r, find_mdat offsets ms = .use r →
      offsets.all (offset_in r) = true ∨
        ((∀ m ∈ ms, offsets.any (offset_in m) = false) ∧ ms.getLast hms = r)) ∧
    (find_mdat offsets ms = .fatal →
      ∃ m ∈ ms, offsets.any (offset_in m) = true ∧ offsets.all (offset_in m) = false) ∧
    ((∀ m ∈ ms, offsets.any (offset_in m) = false) →
      find_mdat offsets ms = .use (ms.getLast hms)) :=
  ⟨fun r h => find_mdat_use_spec offsets ms hms r h,
   fun h => find_mdat_fatal_spec offsets ms h,
   fun h => find_mdat_nomatch offsets hoff ms hms h⟩

/-- Witness for C3 (amended) at a concrete input: one region [16, 24) moved
to output position 20, and a single resolved offset 30 outside it; the loop
silently selects the (last) region. -/
theorem find_mdat_characterization_witness :
    find_mdat [30] [⟨16, 24, 20⟩] = .use ⟨16, 24, 20⟩ := by
  have h := (find_mdat_characterization [30] [⟨16, 24, 20⟩] (by decide) (by decide)).2.2
    (by decide)
  simpa using h

/-- C4: when the search loop selects region `r` for a placeholder whose
resolved offsets all lie inside `r`, the placeholder is re-seeked at its
recorded output position and overwritten with `value + D` where
`D = new output position - original region start`, after checking
`0 <= value + D <= 2 ^ (8 * byte_width) - 1`; with `D = 0` the bytes written
are the encoding of the unchanged original value, and if the output already
holds those bytes the output is unchanged. -/
theorem placeholder_delta_patch (ms : List MdatRegion) (out : List Nat)
    (p : Placeholder) (r : MdatRegion)
    (hfind : find_mdat (get_offset_list p) ms = .use r)
    (_hin : ∀ o ∈ get_offset_list p, offset_in r o = true) :
    (patch_placeholder ms out p =
      if 0 ≤ (p.value : Int) + ((r.newPos : Int) - (r.start : Int)) ∧
         (p.value : Int) + ((r.newPos : Int) - (r.start : Int)) ≤ 2 ^ (p.size * 8) - 1 then
        some (overwrite out p.file_pos
          (beBytes ((p.value : Int) + ((r.newPos : Int) - (r.start : Int))).toNat p.size))
      else none) ∧
    (r.newPos = r.start → p.value ≤ 2 ^ (p.size * 8) - 1 →
      patch_placeholder ms out p =
        some (overwrite out p.file_pos (beBytes p.value p.size))) ∧
    (r.newPos = r.start → p.value ≤ 2 ^ (p.size * 8) - 1 →
      (out.drop p.file_pos).take p.size = beBytes p.value p.size →
      patch_placeholder ms out p = some out) := by
  have hmain : patch_placeholder ms out p =
      if 0 ≤ (p.value : Int) + ((r.newPos : Int) - (r.start : Int)) ∧
         (p.value : Int) + ((r.newPos : Int) - (r.start : Int)) ≤ 2 ^ (p.size * 8) - 1 then
        some (overwrite out p.file_pos
          (beBytes ((p.value : Int) + ((r.newPos : Int) - (r.start : Int))).toNat p.size))
      else none := by
    unfold patch_placeholder
    rw [hfind]
    unfold write_delta
    by_cases h1 : 0 ≤ (p.value : Int) + ((r.newPos : Int) - (r.start : Int))
    · by_cases h2 : (p.value : Int) + ((r.newPos : Int) - (r.start : Int)) ≤
          2 ^ (p.size * 8) - 1
      · simp [h1, h2]
      · simp [h1, h2]
    · simp [h1]
  have hzero : r.newPos = r.start → p.value ≤ 2 ^ (p.size * 8) - 1 →
      patch_placeholder ms out p =
        some (overwrite out p.file_pos (beBytes p.value p.size)) := by
    intro heq hbound
    rw [hmain, heq]
    have hD : ((r.start : Int) - (r.start : Int)) = 0 := by ring
    rw [hD]
    have hnn : (0 : Int) ≤ (p.value : Int) + 0 := by positivity
    have hle : (p.value : Int) + 0 ≤ 2 ^ (p.size * 8) - 1 := by
      have : ((p.value : Int)) ≤ ((2 ^ (p.size * 8) - 1 : Nat) : Int) := by
        exact_mod_cast hbound
      have h2 : (1 : Nat) ≤ 2 ^ (p.size * 8) := Nat.one_le_two_pow
      push_cast [h2] at this
      omega
    rw [if_pos ⟨hnn, hle⟩]
    norm_num
  refine ⟨hmain, hzero, ?_⟩
  intro heq hbound hpre
  rw [hzero heq hbound]
  have hlen : (beBytes p.value p.size).length = p.size := beBytes_length _ _
  rw [overwrite_id out p.file_pos (beBytes p.value p.size) (by rw [hlen]; exact hpre)]

/-- Witness for C4 at a concrete input: region [16, 24) written at output
position 20 (delta 4), placeholder of width 4 with value 18 recorded at
output position 10 in a 20-byte output; the patch overwrites positions
10..14 with the big-endian encoding of 22. -/
theorem placeholder_delta_patch_witness :
    patch_placeholder [⟨16, 24, 20⟩] (List.replicate 20 0) ⟨10, 4, 18, []⟩ =
      some (overwrite (List.replicate 20 0) 10 (beBytes 22 4)) := by
  have h := (placeholder_delta_patch [⟨16, 24, 20⟩] (List.replicate 20 0)
    ⟨10, 4, 18, []⟩ ⟨16, 24, 20⟩ (by decide) (by decide)).1
  rw [h]
  decide

-- ===========================================
-- Item property graph (`ParsedFile` property methods)
-- ===========================================

/-- A property box stored in `ipco.sub_boxes`, reduced to the three
components that `get_existing_property_if_present` compares structurally:
the 4cc type (as a number), the full-box header (`{}` or
`{version, flags}`, modelled as `none` or `some (version, flags)`) and the
body (a keyed record compared by value, modelled as a list of
key/value numbers). -/
structure PropBox where
  typ : Nat
  header : Option (Nat × Nat)
  body : List (Nat × Nat)
deriving DecidableEq

/-- The slice of `ParsedFile` state the property-graph methods act on: the
`ipco` child sequence, the `ipma` associations dictionary
(`item_id -> list of (property_index, essential)`, insertion ordered), and
the `needs_rewrite` flags the methods set via `mark_for_rewrite` (ancestor
propagation is outside this state).  The source methods first bail out when
`ipma`/`ipco` are absent; this model covers the present case, which every
checked claim is about. -/
structure PropState where
  ipco : List PropBox
  ipma : List (Nat × List (Nat × Bool))
  ipco_rewrite : Bool
  ipma_rewrite : Bool
deriving DecidableEq

/-- Dictionary read with default, `self.ipma.body["associations"].get(item_id, [])`. -/
def dict_get (d : List (Nat × List (Nat × Bool))) (k : Nat) : List (Nat × Bool) :=
  match d.find? (fun e => e.1 == k) with
  | some e => e.2
  | none => []

/-- Dictionary write, `associations[item_id] = value`: update in place if
the key exists, else append (Python dicts preserve insertion order). -/
def dict_set (d : List (Nat × List (Nat × Bool))) (k : Nat) (v : List (Nat × Bool)) :
    List (Nat × List (Nat × Bool)) :=
  if d.any (fun e => e.1 == k) then
    d.map (fun e => if e.1 == k then (e.1, v) else e)
  else d ++ [(k, v)]

/-- Python `list.insert(position, val)` for a non-negative position:
inserts before `position`, clamping past-the-end positions to append. -/
def py_insert {α : Type} (l : List α) (pos : Nat) (a : α) : List α :=
  l.take pos ++ [a] ++ l.drop pos

/-- Embedding of `ParsedFile.get_existing_property_if_present`: scan
`ipco.sub_boxes` for the first entry structurally equal to
(type, header, body) and return its 0-based index, or -1 if none exists. -/
def get_existing_property_if_present (s : PropState) (t : Nat)
    (h : Option (Nat × Nat)) (b : List (Nat × Nat)) : Int :=
  match s.ipco.findIdx? (fun box => box.typ == t && box.header == h && box.body == b) with
  | some i => (i : Int)
  | none => -1

/-- Embedding of `ParsedFile._add_property_if_needed`: return the index of
an existing structurally equal property, or append a new box (marking it,
and so its `ipco` ancestor, for rewrite) and return its index. -/
def add_property_if_needed (s : PropState) (t : Nat) (h : Option (Nat × Nat))
    (b : List (Nat × Nat)) : Int × PropState :=
  let existing := get_existing_property_if_present s t h b
  if existing == -1 then
    ((s.ipco.length : Int),
     { s with ipco := s.ipco ++ [⟨t, h, b⟩], ipco_rewrite := true })
  else (existing, s)

/-- The scan loop of `ParsedFile.add_property_association`: walk the item's
current associations; for each one assert
`1 <= property_index <= len(ipco.sub_boxes)` (`none` on failure), and stop
at the first entry with `ipco_index == property_index - 1`, returning its
position and essential flag.  `some none` means the pair is not present. -/
def find_association (nprops : Nat) (ipco_index : Int) :
    List (Nat × Bool) → Option (Option (Nat × Bool))
  | [] => some none
  | (pi, ess) :: rest =>
    if 1 ≤ pi ∧ pi ≤ nprops then
      if ipco_index == (pi : Int) - 1 then some (some (0, ess))
      else
        match find_association nprops ipco_index rest with
        | none => none
        | some none => some none
        | some (some (j, e)) => some (some (j + 1, e))
    else none

/-- Embedding of `ParsedFile.add_property_association`: no change when the
(item, property) pair already exists, except that a prior non-essential
association is upgraded in place when `essential` is requested; otherwise
the pair `(ipco_index + 1, essential)` is inserted at `position`
(defaulting to the end of the list).  The stored index
`(ipco_index + 1).toNat` matches the Python tuple since every caller passes
`ipco_index >= -1`. -/
def add_property_association (s : PropState) (item_id : Nat) (ipco_index : Int)
    (essential : Bool) (position : Option Nat) : Option PropState :=
  let assocs := dict_get s.ipma item_id
  match find_association s.ipco.length ipco_index assocs with
  | none => none
  | some none =>
    let pos := match position with | none => assocs.length | some p => p
    some { s with
      ipma := dict_set s.ipma item_id
        (py_insert assocs pos ((ipco_index + 1).toNat, essential)),
      ipma_rewrite := true }
  | some (some (aidx, cur_ess)) =>
    if essential && !cur_ess then
      some { s with
        ipma := dict_set s.ipma item_id
          (assocs.set aidx ((ipco_index + 1).toNat, essential)),
        ipma_rewrite := true }
    else some s

/-- Embedding of `ParsedFile.add_property_for_item`: ensure the property box
exists, then associate the item with it. -/
def add_property_for_item (s : PropState) (t : Nat) (h : Option (Nat × Nat))
    (b : List (Nat × Nat)) (item_id : Nat) (essential : Bool)
    (position : Option Nat) : Option PropState :=
  let r := add_property_if_needed s t h b
  add_property_association r.2 item_id r.1 essential position

/-- Python list indexing for `lst[i]` with an `Int` index: negative indices
wrap from the end, out-of-range indices raise IndexError (`none`). -/
def py_index (len : Nat) (i : Int) : Option Nat :=
  let j : Int := if i < 0 then (len : Int) + i else i
  if 0 ≤ j ∧ j < (len : Int) then some j.toNat else none

/-- One `prop_assoc_count[prop_index - 1] += 1` step of
`drop_unused_item_properties`. -/
def bump_count (counts : List Nat) (pi : Nat) : Option (List Nat) :=
  match py_index counts.length ((pi : Int) - 1) with
  | none => none
  | some j => some (counts.set j (counts.getD j 0 + 1))

/-- Accumulate association counts over one item's association list. -/
def count_assocs (counts : List Nat) : List (Nat × Bool) → Option (List Nat)
  | [] => some counts
  | (pi, _) :: rest =>
    match bump_count counts pi with
    | none => none
    | some c => count_assocs c rest

/-- Accumulate association counts over the whole `ipma` dictionary. -/
def count_all (counts : List Nat) : List (Nat × List (Nat × Bool)) → Option (List Nat)
  | [] => some counts
  | (_, assocs) :: rest =>
    match count_assocs counts assocs with
    | none => none
    | some c => count_all c rest

/-- Python `itertools.accumulate`: inclusive running sums. -/
def py_accumulate (acc : Nat) : List Nat → List Nat
  | [] => []
  | x :: rest => (acc + x) :: py_accumulate (acc + x) rest

/-- Remap one association for `drop_unused_item_properties`:
`(prop_index - decrement_count[prop_index - 1], essential)`.  The source
subtracts Python ints; under the range validity every checked claim assumes,
the decrement is strictly below `prop_index`, so `Nat` subtraction agrees. -/
def remap_assoc (dec : List Nat) (pe : Nat × Bool) : Option (Nat × Bool) :=
  match py_index dec.length ((pe.1 : Int) - 1) with
  | none => none
  | some j => some (pe.1 - dec.getD j 0, pe.2)

/-- Remap one item's association list. -/
def remap_assocs (dec : List Nat) : List (Nat × Bool) → Option (List (Nat × Bool))
  | [] => some []
  | pe :: rest =>
    match remap_assoc dec pe with
    | none => none
    | some pe2 =>
      match remap_assocs dec rest with
      | none => none
      | some rest2 => some (pe2 :: rest2)

/-- Remap every item's association list, keeping the dictionary keys. -/
def remap_all (dec : List Nat) :
    List (Nat × List (Nat × Bool)) → Option (List (Nat × List (Nat × Bool)))
  | [] => some []
  | (k, assocs) :: rest =>
    match remap_assocs dec assocs with
    | none => none
    | some a2 =>
      match remap_all dec rest with
      | none => none
      | some rest2 => some ((k, a2) :: rest2)

/-- Embedding of `ParsedFile.drop_unused_item_properties`: count the
associations referencing each property; return unchanged when every count is
positive; otherwise remap every association index by the inclusive prefix
sums of the drop indicators and keep only the referenced properties
(`enumerate`-filter over `ipco.sub_boxes`, expressed by zipping with the
equally long indicator list). -/
def drop_unused_item_properties (s : PropState) : Option PropState :=
  match count_all (List.replicate s.ipco.length 0) s.ipma with
  | none => none
  | some counts =>
    if counts.count 0 == 0 then some s
    else
      let props_to_drop := counts.map (fun v => if v > 0 then 0 else 1)
      let dec := py_accumulate 0 props_to_drop
      match remap_all dec s.ipma with
      | none => none
      | some ipma2 =>
        some { s with
          ipco := ((s.ipco.zip props_to_drop).filterMap
            (fun bd => if bd.2 = 0 then some bd.1 else none)),
          ipma := ipma2,
          ipco_rewrite := true }

-- ===========================================
-- Item property lookup (`ParsedFile.get_item_properties_for_item`)
-- ===========================================

/-- Result of `get_item_properties_for_item`: the guard
`assert 1 <= property_index <= len(self.ipco.sub_boxes) + 1` can fail
(`assertFail`), and the subsequent unguarded access
`self.ipco.sub_boxes[property_index - 1]` can raise (`indexErr`). -/
inductive ItemPropsResult where
  | assertFail : ItemPropsResult
  | indexErr : ItemPropsResult
  | ok : List (PropBox × Bool) → ItemPropsResult
deriving DecidableEq

/-- The enumeration loop of `get_item_properties_for_item` over one item's
associations. -/
def get_item_properties_go (ipco : List PropBox) :
    List (Nat × Bool) → ItemPropsResult
  | [] => .ok []
  | (pi, ess) :: rest =>
    if 1 ≤ pi ∧ pi ≤ ipco.length + 1 then
      match ipco[pi - 1]? with
      | none => .indexErr
      | some box =>
        match get_item_properties_go ipco rest with
        | .ok l => .ok ((box, ess) :: l)
        | e => e
    else .assertFail

/-- Embedding of `ParsedFile.get_item_properties_for_item` (for a state with
`ipma`/`ipco` present). -/
def get_item_properties_for_item (s : PropState) (item_id : Nat) : ItemPropsResult :=
  get_item_properties_go s.ipco (dict_get s.ipma item_id)

/-- C10 (code bug): the range guard in `get_item_properties_for_item` is
`1 <= property_index <= len(ipco.sub_boxes) + 1`, one past the valid range,
so an association with `property_index = len + 1` passes the guard and the
lookup `ipco.sub_boxes[property_index - 1]` indexes out of range.  Concretely
with one shared property and an association `(2, non-essential)` the call
raises IndexError rather than a guard failure. -/
theorem property_index_guard_off_by_one :
    (1 ≤ 2 ∧ 2 ≤ ([⟨1, none, []⟩] : List PropBox).length + 1) ∧
    get_item_properties_for_item
      ⟨[⟨1, none, []⟩], [(1, [(2, false)])], false, false⟩ 1 = .indexErr := by
  refine ⟨by decide, by decide⟩

-- ===========================================
-- Dictionary and association-list lemmas
-- ===========================================

/-- Range validity of the association dictionary: every stored
`property_index` is 1-based and within the shared property sequence. -/
def valid_assocs (s : PropState) : Prop :=
  ∀ e ∈ s.ipma, ∀ pe ∈ e.2, 1 ≤ pe.1 ∧ pe.1 ≤ s.ipco.length

theorem find?_map_keep (d : List (Nat × List (Nat × Bool))) (k k2 : Nat)
    (v : List (Nat × Bool)) (hne : k ≠ k2) :
    List.find? (fun e => e.1 == k2)
      (d.map (fun e => if e.1 == k then (e.1, v) else e)) =
    List.find? (fun e => e.1 == k2) d := by
  induction d with
  | nil => rfl
  | cons e rest ih =>
    by_cases h2 : e.1 = k
    · have hpred : (e.1 == k2) = false := by simp [h2, hne]
      simp only [List.map_cons, if_pos (by simp [h2] : (e.1 == k) = true)]
      rw [List.find?_cons_of_neg _ (by simpa using hpred),
        List.find?_cons_of_neg _ (by simpa using hpred)]
      exact ih
    · simp only [List.map_cons, if_neg (by simp [h2] : ¬(e.1 == k) = true)]
      by_cases h3 : e.1 = k2
      · rw [List.find?_cons_of_pos _ (by simp [h3]), List.find?_cons_of_pos _ (by simp [h3])]
      · rw [List.find?_cons_of_neg _ (by simp [h3]), List.find?_cons_of_neg _ (by simp [h3])]
        exact ih

theorem find?_map_found (d : List (Nat × List (Nat × Bool))) (k : Nat)
    (v : List (Nat × Bool)) (hany : d.any (fun e => e.1 == k) = true) :
    List.find? (fun e => e.1 == k)
      (d.map (fun e => if e.1 == k then (e.1, v) else e)) = some (k, v) := by
  induction d with
  | nil => cases hany
  | cons e rest ih =>
    by_cases h2 : e.1 = k
    · simp only [List.map_cons, if_pos (by simp [h2] : (e.1 == k) = true)]
      rw [List.find?_cons_of_pos _ (by simp [h2])]
      rw [h2]
    · simp only [List.any_cons, (by simp [h2] : (e.1 == k) = false), Bool.false_or] at hany
      simp only [List.map_cons, if_neg (by simp [h2] : ¬(e.1 == k) = true)]
      rw [List.find?_cons_of_neg _ (by simp [h2])]
      exact ih hany

theorem dict_get_set_self (d : List (Nat × List (Nat × Bool))) (k : Nat)
    (v : List (Nat × Bool)) : dict_get (dict_set d k v) k = v := by
  unfold dict_set
  by_cases hany : d.any (fun e => e.1 == k) = true
  · simp only [hany, if_true]
    unfold dict_get
    rw [find?_map_found d k v hany]
  · simp only [hany, Bool.false_eq_true, if_false]
    unfold dict_get
    rw [List.find?_append]
    have hany2 : d.any (fun e => e.1 == k) = false := Bool.eq_false_iff.mpr hany
    have hnone : List.find? (fun e => e.1 == k) d = none := by
      rw [List.find?_eq_none]
      intro x hx
      exact (List.any_eq_false).mp hany2 x hx
    rw [hnone]
    simp [List.find?]

theorem dict_get_set_ne (d : List (Nat × List (Nat × Bool))) (k k2 : Nat)
    (v : List (Nat × Bool)) (hne : k ≠ k2) :
    dict_get (dict_set d k v) k2 = dict_get d k2 := by
  unfold dict_set
  by_cases hany : d.any (fun e => e.1 == k) = true
  · simp only [hany, if_true]
    unfold dict_get
    rw [find?_map_keep d k k2 v hne]
  · simp only [hany, Bool.false_eq_true, if_false]
    unfold dict_get
    rw [List.find?_append]
    have hnone : List.find? (fun e => e.1 == k2) [(k, v)] = none := by
      have hb : (k == k2) = false := by simp [hne]
      simp [List.find?, hb]
    rw [hnone]
    cases List.find? (fun e => e.1 == k2) d <;> rfl

theorem dict_get_valid (s : PropState) (hval : valid_assocs s) (item : Nat) :
    ∀ pe ∈ dict_get s.ipma item, 1 ≤ pe.1 ∧ pe.1 ≤ s.ipco.length := by
  intro pe hpe
  unfold dict_get at hpe
  cases hfind : s.ipma.find? (fun e => e.1 == item) with
  | none => rw [hfind] at hpe; cases hpe
  | some e =>
    rw [hfind] at hpe
    exact hval e (List.mem_of_find?_eq_some hfind) pe hpe

theorem find_association_not_found (nprops : Nat) (idx : Int) :
    ∀ l : List (Nat × Bool), (∀ pe ∈ l, 1 ≤ pe.1 ∧ pe.1 ≤ nprops) →
    (∀ pe ∈ l, idx ≠ (pe.1 : Int) - 1) →
    find_association nprops idx l = some none := by
  intro l
  induction l with
  | nil => intro _ _; rfl
  | cons pe rest ih =>
    intro hval hno
    obtain ⟨pi, ess⟩ := pe
    have hb := hval (pi, ess) (by simp)
    have hn : idx ≠ (pi : Int) - 1 := hno (pi, ess) (by simp)
    have hbeq : (idx == (pi : Int) - 1) = false := by simp [hn]
    simp only [find_association, if_pos (by simpa using hb), hbeq, Bool.false_eq_true,
      if_false]
    rw [ih (fun q hq => hval q (by simp [hq])) (fun q hq => hno q (by simp [hq]))]

theorem find_association_found (nprops : Nat) (idx : Int) :
    ∀ (l1 : List (Nat × Bool)) (p0 : Nat) (c : Bool) (l2 : List (Nat × Bool)),
    (∀ pe ∈ l1, 1 ≤ pe.1 ∧ pe.1 ≤ nprops) →
    (1 ≤ p0 ∧ p0 ≤ nprops) →
    (∀ pe ∈ l1, idx ≠ (pe.1 : Int) - 1) →
    idx = (p0 : Int) - 1 →
    find_association nprops idx (l1 ++ (p0, c) :: l2) = some (some (l1.length, c)) := by
  intro l1
  induction l1 with
  | nil =>
    intro p0 c l2 _ hval0 _ hmatch
    have hb2 : (idx == (p0 : Int) - 1) = true := by simp [hmatch]
    simp only [List.nil_append, find_association, if_pos (by simpa using hval0)]
    rw [if_pos hb2]
    rfl
  | cons pe rest ih =>
    intro p0 c l2 hval1 hval0 hno hmatch
    obtain ⟨pi, ess⟩ := pe
    have hb := hval1 (pi, ess) (by simp)
    have hn : idx ≠ (pi : Int) - 1 := hno (pi, ess) (by simp)
    have hbeq : (idx == (pi : Int) - 1) = false := by simp [hn]
    simp only [List.cons_append, find_association, if_pos (by simpa using hb), hbeq,
      Bool.false_eq_true, if_false]
    simp only [List.append_eq]
    rw [ih p0 c l2 (fun q hq => hval1 q (by simp [hq])) hval0
      (fun q hq => hno q (by simp [hq])) hmatch]
    simp

theorem set_append_length {α : Type} : ∀ (l1 : List α) (x y : α) (l2 : List α),
    (l1 ++ x :: l2).set l1.length y = l1 ++ y :: l2 := by
  intro l1
  induction l1 with
  | nil => intro x y l2; rfl
  | cons a rest ih =>
    intro x y l2
    simp only [List.cons_append, List.length_cons, List.set_cons_succ]
    rw [ih x y l2]

theorem py_insert_at_end {α : Type} (l : List α) (a : α) :
    py_insert l l.length a = l ++ [a] := by
  simp [py_insert]

theorem idx_no_match_conv (idx : Nat) (L : List (Nat × Bool))
    (hge : ∀ pe ∈ L, 1 ≤ pe.1) (hne : ∀ pe ∈ L, pe.1 ≠ idx + 1) :
    ∀ pe ∈ L, (idx : Int) ≠ (pe.1 : Int) - 1 := by
  intro pe hpe
  have h1 := hge pe hpe
  have h2 := hne pe hpe
  omega

/-- C7: `add_property_association` is a no-op on the item's association list
when the (item, property) pair already exists, except that a prior
non-essential association is upgraded in place to essential when essential
is requested; a fresh pair is inserted at the given position (default: end
of the list); and associating the same property first non-essential then
essential for one item leaves exactly one association for that property,
flagged essential. -/
theorem association_noop_upgrade_insert (s : PropState) (item idx : Nat)
    (hval : valid_assocs s) (hidx : idx < s.ipco.length) :
    (∀ (l1 : List (Nat × Bool)) (c : Bool) (l2 : List (Nat × Bool)) (ess : Bool)
        (pos : Option Nat),
      dict_get s.ipma item = l1 ++ (idx + 1, c) :: l2 →
      (∀ pe ∈ l1, pe.1 ≠ idx + 1) →
      (ess = false ∨ c = true) →
      add_property_association s item (idx : Int) ess pos = some s) ∧
    (∀ (l1 l2 : List (Nat × Bool)) (pos : Option Nat),
      dict_get s.ipma item = l1 ++ (idx + 1, false) :: l2 →
      (∀ pe ∈ l1, pe.1 ≠ idx + 1) →
      add_property_association s item (idx : Int) true pos =
        some { s with ipma := dict_set s.ipma item (l1 ++ (idx + 1, true) :: l2),
                      ipma_rewrite := true }) ∧
    (∀ (ess : Bool) (p : Nat),
      (∀ pe ∈ dict_get s.ipma item, pe.1 ≠ idx + 1) →
      add_property_association s item (idx : Int) ess (some p) =
        some { s with ipma := dict_set s.ipma item
                        (py_insert (dict_get s.ipma item) p (idx + 1, ess)),
                      ipma_rewrite := true }) ∧
    ((∀ pe ∈ dict_get s.ipma item, pe.1 ≠ idx + 1) →
      ∃ s1 s2,
        add_property_association s item (idx : Int) false none = some s1 ∧
        add_property_association s1 item (idx : Int) true none = some s2 ∧
        dict_get s2.ipma item = dict_get s.ipma item ++ [(idx + 1, true)] ∧
        (dict_get s2.ipma item).countP (fun pe => pe.1 == idx + 1) = 1) := by
  have hvi := dict_get_valid s hval item
  have htn : ((idx : Int) + 1).toNat = idx + 1 := by omega
  have hfound : ∀ (l1 : List (Nat × Bool)) (c : Bool) (l2 : List (Nat × Bool)),
      dict_get s.ipma item = l1 ++ (idx + 1, c) :: l2 →
      (∀ pe ∈ l1, pe.1 ≠ idx + 1) →
      find_association s.ipco.length (idx : Int) (dict_get s.ipma item) =
        some (some (l1.length, c)) := by
    intro l1 c l2 hL hno1
    rw [hL]
    refine find_association_found s.ipco.length (idx : Int) l1 (idx + 1) c l2 ?_ ?_ ?_ ?_
    · intro pe hpe
      exact hvi pe (by rw [hL]; exact List.mem_append_left _ hpe)
    · constructor
      · omega
      · omega
    · refine idx_no_match_conv idx l1 ?_ hno1
      intro pe hpe
      exact (hvi pe (by rw [hL]; exact List.mem_append_left _ hpe)).1
    · omega
  have hnotfound : (∀ pe ∈ dict_get s.ipma item, pe.1 ≠ idx + 1) →
      find_association s.ipco.length (idx : Int) (dict_get s.ipma item) = some none := by
    intro hno
    exact find_association_not_found s.ipco.length (idx : Int) (dict_get s.ipma item)
      hvi (idx_no_match_conv idx _ (fun pe hpe => (hvi pe hpe).1) hno)
  refine ⟨?_, ?_, ?_, ?_⟩
  · intro l1 c l2 ess pos hL hno1 hcase
    simp only [add_property_association, hfound l1 c l2 hL hno1]
    rcases hcase with h | h
    · subst h; simp
    · subst h; simp
  · intro l1 l2 pos hL hno1
    simp only [add_property_association, hfound l1 false l2 hL hno1]
    rw [hL, htn, set_append_length]
    simp
  · intro ess p hno
    simp only [add_property_association, hnotfound hno, htn]
  · intro hno
    refine ⟨{ s with ipma := dict_set s.ipma item (dict_get s.ipma item ++ [(idx + 1, false)]), ipma_rewrite := true }, { s with ipma := dict_set (dict_set s.ipma item (dict_get s.ipma item ++ [(idx + 1, false)])) item (dict_get s.ipma item ++ [(idx + 1, true)]), ipma_rewrite := true }, ?_, ?_, ?_, ?_⟩
    · simp only [add_property_association, hnotfound hno, htn, py_insert_at_end]
    · have hget1 : dict_get (dict_set s.ipma item (dict_get s.ipma item ++ [(idx + 1, false)]))
          item = dict_get s.ipma item ++ [(idx + 1, false)] := dict_get_set_self _ _ _
      simp only [add_property_association, hget1]
      have hfind2 : find_association s.ipco.length (idx : Int)
          (dict_get s.ipma item ++ [(idx + 1, false)]) =
          some (some ((dict_get s.ipma item).length, false)) := by
        refine find_association_found s.ipco.length (idx : Int) (dict_get s.ipma item)
          (idx + 1) false [] hvi ⟨by omega, by omega⟩
          (idx_no_match_conv idx _ (fun pe hpe => (hvi pe hpe).1) hno) (by omega)
      rw [hfind2]
      simp only [Bool.true_and, Bool.not_false]
      rw [if_pos trivial, htn,
        set_append_length (dict_get s.ipma item) (idx + 1, false) (idx + 1, true) []]
    · simp only
      rw [dict_get_set_self]
    · simp only
      rw [dict_get_set_self, List.countP_append]
      have h0 : (dict_get s.ipma item).countP (fun pe => pe.1 == idx + 1) = 0 := by
        rw [List.countP_eq_zero]
        intro pe hpe
        simpa using hno pe hpe
      rw [h0]
      simp

theorem findIdx?_go_none {p : PropBox → Bool} :
    ∀ (l : List PropBox) (i : Nat), (∀ x ∈ l, p x = false) → l.findIdx? p i = none := by
  intro l
  induction l with
  | nil => intro _ _; rfl
  | cons a rest ih =>
    intro i hno
    rw [List.findIdx?_cons, hno a (by simp)]
    simpa using ih (i + 1) (fun x hx => hno x (by simp [hx]))

theorem findIdx?_go_append {p : PropBox → Bool} (b : PropBox) (l2 : List PropBox)
    (hb : p b = true) :
    ∀ (l1 : List PropBox) (i : Nat), (∀ x ∈ l1, p x = false) →
      (l1 ++ b :: l2).findIdx? p i = some (i + l1.length) := by
  intro l1
  induction l1 with
  | nil => intro i _; simp [List.findIdx?_cons, hb]
  | cons a rest ih =>
    intro i hno
    rw [List.cons_append, List.findIdx?_cons, hno a (by simp)]
    simp only [Bool.false_eq_true, if_false]
    rw [ih (i + 1) (fun x hx => hno x (by simp [hx]))]
    simp only [List.length_cons, Option.some.injEq]
    omega

/-- C6: `_add_property_if_needed` returns the index of an existing
structurally equal property and appends a new box only when none exists, so
adding the same (type, header, body) property for two different items yields
one shared entry in `ipco.sub_boxes` (never two structurally equal entries)
referenced by one association from each item. -/
theorem property_dedup_two_items (s : PropState) (t : Nat) (hh : Option (Nat × Nat))
    (b : List (Nat × Nat)) (item1 item2 : Nat) (e1 e2 : Bool)
    (hval : valid_assocs s)
    (hfresh : ∀ box ∈ s.ipco, (box.typ == t && box.header == hh && box.body == b) = false)
    (hne : item1 ≠ item2) :
    ∃ s1 s2,
      add_property_for_item s t hh b item1 e1 none = some s1 ∧
      add_property_for_item s1 t hh b item2 e2 none = some s2 ∧
      s2.ipco = s.ipco ++ [⟨t, hh, b⟩] ∧
      s2.ipco.countP (fun box => box.typ == t && box.header == hh && box.body == b) = 1 ∧
      s2.ipco[s.ipco.length]? = some ⟨t, hh, b⟩ ∧
      dict_get s2.ipma item1 = dict_get s.ipma item1 ++ [(s.ipco.length + 1, e1)] ∧
      dict_get s2.ipma item2 = dict_get s.ipma item2 ++ [(s.ipco.length + 1, e2)] := by
  have hex : get_existing_property_if_present s t hh b = -1 := by
    unfold get_existing_property_if_present
    rw [findIdx?_go_none s.ipco 0 hfresh]
  have hadd : add_property_if_needed s t hh b =
      ((s.ipco.length : Int),
       { s with ipco := s.ipco ++ [⟨t, hh, b⟩], ipco_rewrite := true }) := by
    unfold add_property_if_needed
    rw [hex]
    rfl
  have htn : (((s.ipco.length : Nat) : Int) + 1).toNat = s.ipco.length + 1 := by omega
  have hvi1 := dict_get_valid s hval item1
  have hvi2 := dict_get_valid s hval item2
  have hnf1 : find_association (s.ipco ++ [(⟨t, hh, b⟩ : PropBox)]).length
      ((s.ipco.length : Nat) : Int) (dict_get s.ipma item1) = some none := by
    refine find_association_not_found _ _ _ ?_ ?_
    · intro pe hpe
      have := hvi1 pe hpe
      simp only [List.length_append, List.length_cons, List.length_nil]
      omega
    · intro pe hpe
      have := hvi1 pe hpe
      omega
  have hnf2 : find_association (s.ipco ++ [(⟨t, hh, b⟩ : PropBox)]).length
      ((s.ipco.length : Nat) : Int) (dict_get s.ipma item2) = some none := by
    refine find_association_not_found _ _ _ ?_ ?_
    · intro pe hpe
      have := hvi2 pe hpe
      simp only [List.length_append, List.length_cons, List.length_nil]
      omega
    · intro pe hpe
      have := hvi2 pe hpe
      omega
  refine ⟨{ s with ipco := s.ipco ++ [⟨t, hh, b⟩], ipco_rewrite := true, ipma := dict_set s.ipma item1 (dict_get s.ipma item1 ++ [(s.ipco.length + 1, e1)]), ipma_rewrite := true }, { s with ipco := s.ipco ++ [⟨t, hh, b⟩], ipco_rewrite := true, ipma := dict_set (dict_set s.ipma item1 (dict_get s.ipma item1 ++ [(s.ipco.length + 1, e1)])) item2 (dict_get s.ipma item2 ++ [(s.ipco.length + 1, e2)]), ipma_rewrite := true }, ?_, ?_, ?_, ?_, ?_, ?_, ?_⟩
  · simp only [add_property_for_item, hadd]
    simp only [add_property_association, hnf1, htn, py_insert_at_end]
  · have hex2 : get_existing_property_if_present { s with ipco := s.ipco ++ [⟨t, hh, b⟩], ipco_rewrite := true, ipma := dict_set s.ipma item1 (dict_get s.ipma item1 ++ [(s.ipco.length + 1, e1)]), ipma_rewrite := true } t hh b = ((s.ipco.length : Nat) : Int) := by
      unfold get_existing_property_if_present
      simp only
      rw [findIdx?_go_append (⟨t, hh, b⟩ : PropBox) [] (by simp) s.ipco 0 hfresh]
      simp
    have hadd2 : add_property_if_needed { s with ipco := s.ipco ++ [⟨t, hh, b⟩], ipco_rewrite := true, ipma := dict_set s.ipma item1 (dict_get s.ipma item1 ++ [(s.ipco.length + 1, e1)]), ipma_rewrite := true } t hh b = (((s.ipco.length : Nat) : Int), { s with ipco := s.ipco ++ [⟨t, hh, b⟩], ipco_rewrite := true, ipma := dict_set s.ipma item1 (dict_get s.ipma item1 ++ [(s.ipco.length + 1, e1)]), ipma_rewrite := true }) := by
      have hb : (((s.ipco.length : Nat) : Int) == -1) = false := by
        simp only [beq_eq_false_iff_ne, ne_eq]
        omega
      unfold add_property_if_needed
      rw [hex2]
      simp only [hb, Bool.false_eq_true, if_false]
    simp only [add_property_for_item, hadd2]
    have hg2 : dict_get (dict_set s.ipma item1
        (dict_get s.ipma item1 ++ [(s.ipco.length + 1, e1)])) item2 =
        dict_get s.ipma item2 := dict_get_set_ne _ _ _ _ hne
    simp only [add_property_association, hg2, hnf2, htn, py_insert_at_end]
  · rfl
  · simp only
    rw [List.countP_append]
    have h0 : s.ipco.countP (fun box => box.typ == t && box.header == hh && box.body == b)
        = 0 := by
      rw [List.countP_eq_zero]
      intro box hbox
      simp [hfresh box hbox]
    rw [h0]
    simp
  · simp only
    rw [List.getElem?_append_right (by omega)]
    simp
  · simp only
    rw [dict_get_set_ne _ _ _ _ (Ne.symm hne), dict_get_set_self]
  · simp only
    rw [dict_get_set_self]

/-- Witness for C6 at a concrete input: starting from an empty property
container, adding the same (type 1, no header, empty body) property for
items 1 and 2 yields one shared entry referenced by both items. -/
theorem property_dedup_two_items_witness :
    ∃ s1 s2,
      add_property_for_item ⟨[], [], false, false⟩ 1 none [] 1 false none = some s1 ∧
      add_property_for_item s1 1 none [] 2 true none = some s2 ∧
      s2.ipco = [] ++ [⟨1, none, []⟩] ∧
      s2.ipco.countP (fun box => box.typ == 1 && box.header == none && box.body == []) = 1 ∧
      s2.ipco[(0 : Nat)]? = some ⟨1, none, []⟩ ∧
      dict_get s2.ipma 1 =
        dict_get (⟨[], [], false, false⟩ : PropState).ipma 1 ++ [(0 + 1, false)] ∧
      dict_get s2.ipma 2 =
        dict_get (⟨[], [], false, false⟩ : PropState).ipma 2 ++ [(0 + 1, true)] :=
  property_dedup_two_items ⟨[], [], false, false⟩ 1 none [] 1 2 false true
    (fun e he => absurd he (List.not_mem_nil e))
    (fun box hbox => absurd hbox (List.not_mem_nil box))
    (by decide)

/-- Witness for C7 at a concrete input: item 7 of a one-property state gets
the property associated non-essential then essential, ending with exactly
one association, flagged essential. -/
theorem association_noop_upgrade_insert_witness :
    ∃ s1 s2,
      add_property_association ⟨[⟨1, none, []⟩], [], false, false⟩ 7 ((0 : Nat) : Int)
        false none = some s1 ∧
      add_property_association s1 7 ((0 : Nat) : Int) true none = some s2 ∧
      dict_get s2.ipma 7 =
        dict_get (⟨[⟨1, none, []⟩], [], false, false⟩ : PropState).ipma 7 ++
          [(0 + 1, true)] ∧
      (dict_get s2.ipma 7).countP (fun pe => pe.1 == 0 + 1) = 1 :=
  (association_noop_upgrade_insert ⟨[⟨1, none, []⟩], [], false, false⟩ 7 0
    (fun e he => absurd he (List.not_mem_nil e)) (by decide)).2.2.2
    (fun pe hpe => absurd hpe (List.not_mem_nil pe))

-- ===========================================
-- Compaction (`ParsedFile.drop_unused_item_properties`)
-- ===========================================

/-- Number of associations anywhere in `ipma` that reference the property at
0-based position `j` of the shared sequence (1-based `property_index`
`j + 1`); the quantity the `prop_assoc_count` vector of
`drop_unused_item_properties` computes. -/
def assoc_count (s : PropState) (j : Nat) : Nat :=
  (s.ipma.map (fun e => e.2.countP (fun pe => pe.1 == j + 1))).sum

/-- Number of removed (zero-association) properties strictly preceding the
property with 1-based index `pi` in the shared sequence. -/
def removedBefore (s : PropState) (pi : Nat) : Nat :=
  (List.range (pi - 1)).countP (fun j => assoc_count s j == 0)

/-- The shared property sequence after compaction: every entry whose
position has zero remaining associations is removed, in order (`j` is the
position of the head of the remaining list). -/
def keep_from (s : PropState) : Nat → List PropBox → List PropBox
  | _, [] => []
  | j, box :: rest =>
    if assoc_count s j == 0 then keep_from s (j + 1) rest
    else box :: keep_from s (j + 1) rest

theorem py_index_pos (len pi : Nat) (h1 : 1 ≤ pi) (h2 : pi ≤ len) :
    py_index len ((pi : Int) - 1) = some (pi - 1) := by
  unfold py_index
  have h3 : ¬((pi : Int) - 1 < 0) := by omega
  rw [if_neg h3]
  rw [if_pos (by constructor <;> omega)]
  congr 1
  omega

theorem getD_set_lt (l : List Nat) (k j x : Nat) (hk : k < l.length) :
    (l.set k x).getD j 0 = if k = j then x else l.getD j 0 := by
  by_cases h : k = j
  · subst h
    rw [if_pos rfl]
    rw [List.getD_eq_getElem?_getD, List.getElem?_set_self (by omega)]
    rfl
  · rw [if_neg h]
    rw [List.getD_eq_getElem?_getD, List.getElem?_set_ne h, ← List.getD_eq_getElem?_getD]

theorem count_assocs_spec :
    ∀ (l : List (Nat × Bool)) (counts : List Nat),
      (∀ pe ∈ l, 1 ≤ pe.1 ∧ pe.1 ≤ counts.length) →
      ∃ c, count_assocs counts l = some c ∧ c.length = counts.length ∧
        ∀ j < counts.length,
          c.getD j 0 = counts.getD j 0 + l.countP (fun pe => pe.1 == j + 1) := by
  intro l
  induction l with
  | nil =>
    intro counts _
    exact ⟨counts, rfl, rfl, fun j _ => by simp [List.countP_nil]⟩
  | cons pe rest ih =>
    intro counts hvalid
    obtain ⟨pi, es⟩ := pe
    have hb := hvalid (pi, es) (by simp)
    have hbump : bump_count counts pi =
        some (counts.set (pi - 1) (counts.getD (pi - 1) 0 + 1)) := by
      unfold bump_count
      rw [py_index_pos counts.length pi hb.1 hb.2]
    have hlen1 : (counts.set (pi - 1) (counts.getD (pi - 1) 0 + 1)).length =
        counts.length := by simp
    obtain ⟨c, hc, hclen, hcval⟩ := ih (counts.set (pi - 1) (counts.getD (pi - 1) 0 + 1))
      (fun q hq => by rw [hlen1]; exact hvalid q (by simp [hq]))
    refine ⟨c, ?_, by rw [hclen, hlen1], ?_⟩
    · simp only [count_assocs, hbump]
      exact hc
    · intro j hj
      rw [hcval j (by rw [hlen1]; exact hj)]
      rw [getD_set_lt counts (pi - 1) j _ (by omega)]
      rw [List.countP_cons]
      by_cases h : pi = j + 1
      · have hbeq : ((pi, es).1 == j + 1) = true := by simp [h]
        have hidx : pi - 1 = j := by omega
        rw [hidx, if_pos rfl, hbeq, if_pos rfl]
        omega
      · have hbeq : ((pi, es).1 == j + 1) = false := by simp [h]
        rw [if_neg (show ¬ pi - 1 = j by omega), hbeq, if_neg Bool.false_ne_true]
        omega

theorem count_all_spec :
    ∀ (d : List (Nat × List (Nat × Bool))) (counts : List Nat),
      (∀ e ∈ d, ∀ pe ∈ e.2, 1 ≤ pe.1 ∧ pe.1 ≤ counts.length) →
      ∃ c, count_all counts d = some c ∧ c.length = counts.length ∧
        ∀ j < counts.length,
          c.getD j 0 = counts.getD j 0 +
            (d.map (fun e => e.2.countP (fun pe => pe.1 == j + 1))).sum := by
  intro d
  induction d with
  | nil =>
    intro counts _
    exact ⟨counts, rfl, rfl, fun j _ => by simp⟩
  | cons e rest ih =>
    intro counts hvalid
    obtain ⟨k, assocs⟩ := e
    obtain ⟨c1, hc1, hc1len, hc1val⟩ := count_assocs_spec assocs counts
      (fun pe hpe => hvalid (k, assocs) (by simp) pe hpe)
    obtain ⟨c, hc, hclen, hcval⟩ := ih c1
      (fun e2 he2 pe hpe => by rw [hc1len]; exact hvalid e2 (by simp [he2]) pe hpe)
    refine ⟨c, ?_, by rw [hclen, hc1len], ?_⟩
    · simp only [count_all, hc1]
      exact hc
    · intro j hj
      rw [hcval j (by rw [hc1len]; exact hj), hc1val j hj]
      simp only [List.map_cons, List.sum_cons]
      omega

theorem py_accumulate_length (l : List Nat) : ∀ acc, (py_accumulate acc l).length = l.length := by
  induction l with
  | nil => intro acc; rfl
  | cons x rest ih => intro acc; simp [py_accumulate, ih]

theorem py_accumulate_getD (l : List Nat) :
    ∀ (acc j : Nat), j < l.length →
      (py_accumulate acc l).getD j 0 = acc + (l.take (j + 1)).sum := by
  induction l with
  | nil => intro acc j hj; cases hj
  | cons x rest ih =>
    intro acc j hj
    cases j with
    | zero => simp [py_accumulate]
    | succ j2 =>
      simp only [py_accumulate, List.getD_cons_succ]
      rw [ih (acc + x) j2 (by simpa using hj)]
      simp only [List.take_succ_cons, List.sum_cons]
      omega

theorem drop_indicator_take_sum :
    ∀ (counts : List Nat) (k : Nat), k ≤ counts.length →
      ((counts.map (fun v => if v > 0 then 0 else 1)).take k).sum =
        (List.range k).countP (fun j => counts.getD j 0 == 0) := by
  intro counts
  induction counts with
  | nil =>
    intro k hk
    have hk0 : k = 0 := by simpa using hk
    subst hk0
    simp
  | cons c cs ih =>
    intro k hk
    cases k with
    | zero => simp
    | succ k2 =>
      simp only [List.map_cons, List.take_succ_cons, List.sum_cons]
      rw [ih k2 (by simpa using hk)]
      rw [List.range_succ_eq_map]
      rw [List.countP_cons]
      rw [List.countP_map]
      have hcomp : ((fun j => cs.getD j 0 == 0)) =
          ((fun j => (c :: cs).getD j 0 == 0) ∘ Nat.succ) := by
        funext j
        simp [List.getD_cons_succ]
      rw [← hcomp]
      by_cases hc : c = 0
      · subst hc
        simp
        omega
      · have h1 : ((c :: cs).getD 0 0 == 0) = false := by simp [hc]
        have h2 : (if c > 0 then 0 else 1) = 0 := by
          rw [if_pos (by omega)]
        rw [h1, h2]
        simp

theorem getD_map_lt (l : List Nat) (f : Nat → Nat) (k : Nat) (hk : k < l.length) :
    (l.map f).getD k 0 = f (l.getD k 0) := by
  rw [List.getD_eq_getElem?_getD, List.getElem?_map, List.getD_eq_getElem?_getD]
  rw [List.getElem?_eq_getElem hk]
  rfl

theorem getD_replicate_zero (n k : Nat) : (List.replicate n 0).getD k 0 = 0 := by
  rw [List.getD_eq_getElem?_getD, List.getElem?_replicate]
  by_cases h : k < n <;> simp [h]

theorem keep_from_all (s : PropState) :
    ∀ (l : List PropBox) (j : Nat),
      (∀ k < l.length, assoc_count s (j + k) ≠ 0) → keep_from s j l = l := by
  intro l
  induction l with
  | nil => intro j _; rfl
  | cons box rest ih =>
    intro j hnz
    have h0 : assoc_count s j ≠ 0 := by simpa using hnz 0 (by simp)
    have hb : (assoc_count s j == 0) = false := by simpa using h0
    simp only [keep_from, hb, Bool.false_eq_true, if_false]
    rw [ih (j + 1) ?_]
    intro k hk
    have := hnz (k + 1) (by simpa using hk)
    have harith : j + (k + 1) = j + 1 + k := by omega
    rwa [harith] at this

theorem keep_from_spec (s : PropState) :
    ∀ (l : List PropBox) (ds : List Nat) (j : Nat),
      ds.length = l.length →
      (∀ k < l.length, ds.getD k 0 = if assoc_count s (j + k) == 0 then 1 else 0) →
      (l.zip ds).filterMap (fun bd => if bd.2 = 0 then some bd.1 else none) =
        keep_from s j l := by
  intro l
  induction l with
  | nil => intro ds j _ _; simp [keep_from]
  | cons box rest ih =>
    intro ds j hlen hds
    cases ds with
    | nil => simp at hlen
    | cons d ds2 =>
      have hd : d = if assoc_count s j == 0 then 1 else 0 := by
        have := hds 0 (by simp)
        simpa using this
      have hrec : (rest.zip ds2).filterMap (fun bd => if bd.2 = 0 then some bd.1 else none) =
          keep_from s (j + 1) rest := by
        refine ih ds2 (j + 1) (by simpa using hlen) ?_
        intro k hk
        have := hds (k + 1) (by simpa using hk)
        rw [List.getD_cons_succ] at this
        have harith : j + (k + 1) = j + 1 + k := by omega
        rwa [harith] at this
      by_cases hz : (assoc_count s j == 0) = true
      · have hd1 : d = 1 := by rw [hd, if_pos hz]
        subst hd1
        simp only [List.zip_cons_cons, List.filterMap_cons]
        simp only [keep_from, hz, if_true]
        simpa using hrec
      · have hd0 : d = 0 := by
          rw [hd, if_neg hz]
        subst hd0
        simp only [List.zip_cons_cons, List.filterMap_cons]
        have hzf : (assoc_count s j == 0) = false := by
          simpa using hz
        simp only [keep_from, hzf, Bool.false_eq_true, if_false]
        simpa using hrec

theorem assoc_count_pos (s : PropState) :
    ∀ e ∈ s.ipma, ∀ pe ∈ e.2, 1 ≤ pe.1 → assoc_count s (pe.1 - 1) ≠ 0 := by
  intro e he pe hpe h1
  unfold assoc_count
  have hcnt : 0 < e.2.countP (fun q => q.1 == (pe.1 - 1) + 1) := by
    rw [List.countP_pos_iff]
    exact ⟨pe, hpe, by simp; omega⟩
  have hmem : e.2.countP (fun q => q.1 == (pe.1 - 1) + 1) ∈
      s.ipma.map (fun e2 => e2.2.countP (fun q => q.1 == (pe.1 - 1) + 1)) :=
    List.mem_map_of_mem _ he
  have hle := List.single_le_sum (fun x _ => Nat.zero_le x) _ hmem
  omega

theorem dec_getD_spec (s : PropState) (C : List Nat)
    (hClen : C.length = s.ipco.length)
    (hCval : ∀ j < s.ipco.length, C.getD j 0 = assoc_count s j)
    (pi : Nat) (h1 : 1 ≤ pi) (h2 : pi ≤ s.ipco.length)
    (hnz : assoc_count s (pi - 1) ≠ 0) :
    (py_accumulate 0 (C.map (fun v => if v > 0 then 0 else 1))).getD (pi - 1) 0 =
      removedBefore s pi := by
  have hdl : (C.map (fun v => if v > 0 then 0 else 1)).length = s.ipco.length := by
    simp [hClen]
  rw [py_accumulate_getD _ 0 (pi - 1) (by omega)]
  have harith : pi - 1 + 1 = pi := by omega
  rw [harith]
  rw [drop_indicator_take_sum C pi (by omega)]
  have hsplit : pi = (pi - 1) + 1 := by omega
  rw [hsplit, List.range_succ, List.countP_append]
  have hlast : (List.countP (fun j => C.getD j 0 == 0) [pi - 1]) = 0 := by
    have hcq : C.getD (pi - 1) 0 = assoc_count s (pi - 1) := hCval (pi - 1) (by omega)
    have hb : (assoc_count s (pi - 1) == 0) = false := by simpa using hnz
    rw [List.countP_singleton, hcq, hb]
    simp
  rw [hlast]
  have hcong : List.countP (fun j => C.getD j 0 == 0) (List.range (pi - 1)) =
      List.countP (fun j => assoc_count s j == 0) (List.range (pi - 1)) := by
    apply List.countP_congr
    intro j hj
    have hj2 : j < pi - 1 := List.mem_range.mp hj
    rw [hCval j (by omega)]
  rw [hcong]
  unfold removedBefore
  rw [← hsplit]
  omega

theorem remap_assocs_spec (s : PropState) (C : List Nat)
    (hClen : C.length = s.ipco.length)
    (hCval : ∀ j < s.ipco.length, C.getD j 0 = assoc_count s j) :
    ∀ (l : List (Nat × Bool)),
      (∀ pe ∈ l, 1 ≤ pe.1 ∧ pe.1 ≤ s.ipco.length ∧ assoc_count s (pe.1 - 1) ≠ 0) →
      remap_assocs (py_accumulate 0 (C.map (fun v => if v > 0 then 0 else 1))) l =
        some (l.map (fun pe => (pe.1 - removedBefore s pe.1, pe.2))) := by
  intro l
  induction l with
  | nil => intro _; rfl
  | cons pe rest ih =>
    intro hv
    obtain ⟨pi, es⟩ := pe
    obtain ⟨hp1, hp2, hp3⟩ := hv (pi, es) (by simp)
    have hlen2 : (py_accumulate 0 (C.map (fun v => if v > 0 then 0 else 1))).length =
        s.ipco.length := by
      rw [py_accumulate_length]
      simp [hClen]
    have hone : remap_assoc (py_accumulate 0 (C.map (fun v => if v > 0 then 0 else 1)))
        (pi, es) = some (pi - removedBefore s pi, es) := by
      unfold remap_assoc
      rw [hlen2, py_index_pos s.ipco.length pi hp1 hp2]
      simp only [dec_getD_spec s C hClen hCval pi hp1 hp2 hp3]
    simp only [remap_assocs, hone]
    rw [ih (fun q hq => hv q (by simp [hq]))]
    rfl

theorem remap_all_spec (s : PropState) (C : List Nat)
    (hClen : C.length = s.ipco.length)
    (hCval : ∀ j < s.ipco.length, C.getD j 0 = assoc_count s j) :
    ∀ (d : List (Nat × List (Nat × Bool))),
      (∀ e ∈ d, ∀ pe ∈ e.2, 1 ≤ pe.1 ∧ pe.1 ≤ s.ipco.length ∧
        assoc_count s (pe.1 - 1) ≠ 0) →
      remap_all (py_accumulate 0 (C.map (fun v => if v > 0 then 0 else 1))) d =
        some (d.map (fun e => (e.1, e.2.map
          (fun pe => (pe.1 - removedBefore s pe.1, pe.2))))) := by
  intro d
  induction d with
  | nil => intro _; rfl
  | cons e rest ih =>
    intro hv
    obtain ⟨k, assocs⟩ := e
    have h1 := remap_assocs_spec s C hClen hCval assocs
      (fun pe hpe => hv (k, assocs) (by simp) pe hpe)
    simp only [remap_all, h1]
    rw [ih (fun e2 he2 pe hpe => hv e2 (by simp [he2]) pe hpe)]
    rfl

/-- C8: after `drop_unused_item_properties`, every property with zero
remaining associations is removed from the shared sequence (in order), and
every surviving association's `property_index` is decremented by exactly the
number of removed properties that preceded it in the sequence; in particular
removing the only association to a property drops it and decrements every
later index by one, for every item. -/
theorem drop_unused_compaction (s : PropState) (hval : valid_assocs s) :
    ∃ s2, drop_unused_item_properties s = some s2 ∧
      s2.ipco = keep_from s 0 s.ipco ∧
      s2.ipma = s.ipma.map (fun e => (e.1, e.2.map
        (fun pe => (pe.1 - removedBefore s pe.1, pe.2)))) := by
  obtain ⟨C, hC, hClen0, hCval0⟩ := count_all_spec s.ipma (List.replicate s.ipco.length 0)
    (by
      intro e he pe hpe
      have := hval e he pe hpe
      simpa using this)
  have hClen : C.length = s.ipco.length := by simpa using hClen0
  have hCval : ∀ j < s.ipco.length, C.getD j 0 = assoc_count s j := by
    intro j hj
    have := hCval0 j (by simpa using hj)
    rw [getD_replicate_zero] at this
    simpa [assoc_count] using this
  unfold drop_unused_item_properties
  simp only [hC]
  by_cases hz : (C.count 0 == 0) = true
  · rw [if_pos hz]
    have hnz : ∀ j < s.ipco.length, assoc_count s j ≠ 0 := by
      intro j hj
      have hcz : C.count 0 = 0 := by simpa using hz
      have hjC : j < C.length := by omega
      have hmem : C.getD j 0 ∈ C := by
        rw [List.getD_eq_getElem?_getD, List.getElem?_eq_getElem hjC]
        exact List.getElem_mem hjC
      intro h0
      have : (0 : Nat) ∈ C := by
        rw [← hCval j hj] at h0
        rw [← h0]
        exact hmem
      exact absurd hcz (by rw [List.count_eq_zero]; intro hc; exact hc this)
    refine ⟨s, rfl, ?_, ?_⟩
    · rw [keep_from_all s s.ipco 0 (fun k hk => by simpa using hnz k hk)]
    · have h1 : ∀ e ∈ s.ipma,
          (fun e => (e.1, e.2.map (fun pe => (pe.1 - removedBefore s pe.1, pe.2)))) e =
          id e := by
        intro e he
        have hinner : ∀ pe ∈ e.2, (pe.1 - removedBefore s pe.1, pe.2) = pe := by
          intro pe hpe
          have hb := hval e he pe hpe
          have hrb : removedBefore s pe.1 = 0 := by
            unfold removedBefore
            rw [List.countP_eq_zero]
            intro j hj
            have hj2 : j < pe.1 - 1 := List.mem_range.mp hj
            have := hnz j (by omega)
            simpa using this
          rw [hrb]
          simp
        simp only [id]
        rw [List.map_congr_left hinner]
        simp
      have houter := List.map_congr_left h1
      rw [List.map_id] at houter
      exact houter.symm
  · rw [if_neg hz]
    have hfacts : ∀ e ∈ s.ipma, ∀ pe ∈ e.2, 1 ≤ pe.1 ∧ pe.1 ≤ s.ipco.length ∧
        assoc_count s (pe.1 - 1) ≠ 0 := by
      intro e he pe hpe
      have hb := hval e he pe hpe
      exact ⟨hb.1, hb.2, assoc_count_pos s e he pe hpe hb.1⟩
    simp only [remap_all_spec s C hClen hCval s.ipma hfacts]
    refine ⟨_, rfl, ?_, ?_⟩
    · simp only
      refine keep_from_spec s s.ipco (C.map (fun v => if v > 0 then 0 else 1)) 0
        (by simp [hClen]) ?_
      intro k hk
      rw [getD_map_lt C _ k (by omega)]
      rw [hCval k (by omega)]
      simp only [Nat.zero_add]
      by_cases hak : assoc_count s k = 0
      · rw [hak]
        simp
      · have h1 : (assoc_count s k == 0) = false := by simpa using hak
        rw [h1]
        have h2 : assoc_count s k > 0 := by omega
        simp [h2]
    · rfl

/-- Witness for C8 at a concrete input: two shared properties, item 1
associated only with property 2; compaction drops property 1 and decrements
the surviving association index from 2 to 1. -/
theorem drop_unused_compaction_witness :
    ∃ s2, drop_unused_item_properties
        ⟨[⟨1, none, []⟩, ⟨2, none, []⟩], [(1, [(2, true)])], false, false⟩ = some s2 ∧
      s2.ipco = keep_from
        ⟨[⟨1, none, []⟩, ⟨2, none, []⟩], [(1, [(2, true)])], false, false⟩ 0
        [⟨1, none, []⟩, ⟨2, none, []⟩] ∧
      s2.ipma = [(1, [(2, true)])].map (fun e => (e.1, e.2.map
        (fun pe => (pe.1 - removedBefore
          ⟨[⟨1, none, []⟩, ⟨2, none, []⟩], [(1, [(2, true)])], false, false⟩ pe.1,
          pe.2)))) :=
  drop_unused_compaction
    ⟨[⟨1, none, []⟩, ⟨2, none, []⟩], [(1, [(2, true)])], false, false⟩
    (by unfold valid_assocs; decide)

-- ===========================================
-- AV1 sequence header decoding
-- (`AV1ElementaryStream._parse_av1_sequence_header_obu`)
-- ===========================================

/-- Embedding of `FileReader.BitReader`: byte buffer plus byte and bit
positions. -/
structure BitReader where
  data : List Nat
  pos : Nat
  bit_pos : Nat
deriving DecidableEq

/-- Embedding of `BitReader.get_next_bit`; `none` models the IndexError on
reading past the buffer. -/
def get_next_bit (r : BitReader) : Option (Nat × BitReader) :=
  match r.data[r.pos]? with
  | none => none
  | some byte =>
    let bit := (byte >>> (7 - r.bit_pos)) &&& 1
    if r.bit_pos + 1 ≥ 8 then some (bit, ⟨r.data, r.pos + 1, r.bit_pos + 1 - 8⟩)
    else some (bit, ⟨r.data, r.pos, r.bit_pos + 1⟩)

/-- Embedding of `BitReader.f(num_bits)`: accumulate `value << 1 | bit`. -/
def f_go (acc : Nat) : Nat → BitReader → Option (Nat × BitReader)
  | 0, r => some (acc, r)
  | n + 1, r =>
    match get_next_bit r with
    | none => none
    | some (bit, r2) => f_go (acc * 2 + bit) n r2

/-- Embedding of `BitReader.f(num_bits)`. -/
def read_f (r : BitReader) (n : Nat) : Option (Nat × BitReader) := f_go 0 n r

/-- Keys of the `parsed` dictionary built by
`_parse_av1_sequence_header_obu`, one per dictionary key the source
assigns, encoded as a (tag, subscript) pair of numbers; the subscript
carries the `i` of the f-string keys of the operating-points loop and is 0
for plain keys.  The pair encoding keeps key equality structurally shallow. -/
abbrev SHKey : Type := Nat × Nat

namespace SHKey
def seq_profile : SHKey := (0, 0)
def still_picture : SHKey := (1, 0)
def reduced_still_picture_header : SHKey := (2, 0)
def timing_info_present_flag : SHKey := (3, 0)
def decoder_model_info_present_flag : SHKey := (4, 0)
def initial_display_delay_present_flag : SHKey := (5, 0)
def operating_points_cnt_minus_1 : SHKey := (6, 0)
def operating_point_idc (i : Nat) : SHKey := (7, i)
def seq_level_idx (i : Nat) : SHKey := (8, i)
def seq_tier (i : Nat) : SHKey := (9, i)
def decoder_model_present_for_this_op (i : Nat) : SHKey := (10, i)
def initial_display_delay_present_for_this_op (i : Nat) : SHKey := (11, i)
def initial_display_delay_minus_1 (i : Nat) : SHKey := (12, i)
def frame_width_bits_minus_1 : SHKey := (13, 0)
def frame_height_bits_minus_1 : SHKey := (14, 0)
def max_frame_width_minus_1 : SHKey := (15, 0)
def max_frame_height_minus_1 : SHKey := (16, 0)
def frame_id_numbers_present_flag : SHKey := (17, 0)
def delta_frame_id_length_minus_2 : SHKey := (18, 0)
def additional_frame_id_length_minus_1 : SHKey := (19, 0)
def use_128x128_superblock : SHKey := (20, 0)
def enable_filter_intra : SHKey := (21, 0)
def enable_intra_edge_filter : SHKey := (22, 0)
def enable_interintra_compound : SHKey := (23, 0)
def enable_masked_compound : SHKey := (24, 0)
def enable_warped_motion : SHKey := (25, 0)
def enable_dual_filter : SHKey := (26, 0)
def enable_order_hint : SHKey := (27, 0)
def enable_jnt_comp : SHKey := (28, 0)
def enable_ref_frame_mvs : SHKey := (29, 0)
def seq_choose_screen_content_tools : SHKey := (30, 0)
def seq_force_screen_content_tools : SHKey := (31, 0)
def seq_choose_integer_mv : SHKey := (32, 0)
def seq_force_integer_mv : SHKey := (33, 0)
def order_hint_bits_minus_1 : SHKey := (34, 0)
def enable_superres : SHKey := (35, 0)
def enable_cdef : SHKey := (36, 0)
def enable_restoration : SHKey := (37, 0)
def high_bitdepth : SHKey := (38, 0)
def twelve_bit : SHKey := (39, 0)
def calculated_bitdepth : SHKey := (40, 0)
def mono_chrome : SHKey := (41, 0)
def calculated_numplanes : SHKey := (42, 0)
def color_description_present_flag : SHKey := (43, 0)
def color_primaries : SHKey := (44, 0)
def transfer_characteristics : SHKey := (45, 0)
def matrix_coefficients : SHKey := (46, 0)
def color_range : SHKey := (47, 0)
def subsampling_x : SHKey := (48, 0)
def subsampling_y : SHKey := (49, 0)
def chroma_sample_position : SHKey := (50, 0)
def separate_uv_delta_q : SHKey := (51, 0)
def film_grain_params_present : SHKey := (52, 0)
end SHKey

/-- The `parsed` dictionary: newest assignment first, lookup takes the
latest binding (Python dict assignment overwrites). -/
def SHDict : Type := List (SHKey × Nat)

/-- Dictionary assignment `parsed[key] = v`. -/
def shset (d : SHDict) (k : SHKey) (v : Nat) : SHDict := (k, v) :: d

/-- Dictionary read `parsed[key]`; `none` models a KeyError. -/
def shget (d : SHDict) (k : SHKey) : Option Nat :=
  ((d : List (SHKey × Nat)).find? (fun e => e.1 == k)).map (fun e => e.2)

/-- The operating-points loop of the non-reduced header path (`for i in
range(operating_points_cnt_minus_1 + 1)`), recursing on the number of
remaining iterations. -/
def op_loop (idd_flag : Nat) : Nat → Nat → SHDict → BitReader →
    Option (SHDict × BitReader)
  | _, 0, d, r => some (d, r)
  | i, left + 1, d, r => do
    let (idc, r) ← read_f r 12
    let d := shset d (SHKey.operating_point_idc i) idc
    let (lvl, r) ← read_f r 5
    let d := shset d (SHKey.seq_level_idx i) lvl
    let (d, r) ←
      if lvl > 7 then do
        let (tier, r) ← read_f r 1
        pure (shset d (SHKey.seq_tier i) tier, r)
      else pure (shset d (SHKey.seq_tier i) 0, r)
    let d := shset d (SHKey.decoder_model_present_for_this_op i) 0
    let (d, r) ←
      if idd_flag ≠ 0 then do
        let (p, r) ← read_f r 1
        let d := shset d (SHKey.initial_display_delay_present_for_this_op i) p
        if p ≠ 0 then do
          let (v, r) ← read_f r 4
          pure (shset d (SHKey.initial_display_delay_minus_1 i) v, r)
        else pure (d, r)
      else pure (d, r)
    op_loop idd_flag (i + 1) left d r

/-- The reduced-still-picture branch of the header (source lines
1176-1184): fixed defaults plus a 5-bit `seq_level_idx[0]`. -/
def sh_reduced_defaults (d : SHDict) (r : BitReader) : Option (SHDict × BitReader) := do
  let d := shset d SHKey.timing_info_present_flag 0
  let d := shset d SHKey.decoder_model_info_present_flag 0
  let d := shset d SHKey.initial_display_delay_present_flag 0
  let d := shset d SHKey.operating_points_cnt_minus_1 0
  let d := shset d (SHKey.operating_point_idc 0) 0
  let (lvl, r) ← read_f r 5
  let d := shset d (SHKey.seq_level_idx 0) lvl
  let d := shset d (SHKey.seq_tier 0) 0
  let d := shset d (SHKey.decoder_model_present_for_this_op 0) 0
  pure (shset d (SHKey.initial_display_delay_present_for_this_op 0) 0, r)

/-- The non-reduced branch of the header (source lines 1186-1203): timing
info must be absent (assert), then the operating-points loop. -/
def sh_operating_points (d : SHDict) (r : BitReader) : Option (SHDict × BitReader) := do
  let (timing, r) ← read_f r 1
  let d := shset d SHKey.timing_info_present_flag timing
  -- assert timing_info_present_flag == 0, "Not yet implemented"
  if timing ≠ 0 then none
  else do
    let d := shset d SHKey.decoder_model_info_present_flag 0
    let (idd, r) ← read_f r 1
    let d := shset d SHKey.initial_display_delay_present_flag idd
    let (cnt, r) ← read_f r 5
    let d := shset d SHKey.operating_points_cnt_minus_1 cnt
    op_loop idd 0 (cnt + 1) d r

/-- Frame dimension fields (source lines 1204-1207). -/
def sh_frame_dims (d : SHDict) (r : BitReader) : Option (SHDict × BitReader) := do
  let (fwb, r) ← read_f r 4
  let d := shset d SHKey.frame_width_bits_minus_1 fwb
  let (fhb, r) ← read_f r 4
  let d := shset d SHKey.frame_height_bits_minus_1 fhb
  let (mfw, r) ← read_f r (fwb + 1)
  let d := shset d SHKey.max_frame_width_minus_1 mfw
  let (mfh, r) ← read_f r (fhb + 1)
  pure (shset d SHKey.max_frame_height_minus_1 mfh, r)

/-- Frame id fields (source lines 1208-1214). -/
def sh_frame_id (reduced : Nat) (d : SHDict) (r : BitReader) :
    Option (SHDict × BitReader) := do
  let (fid, r) ← if reduced ≠ 0 then pure ((0 : Nat), r) else read_f r 1
  let d := shset d SHKey.frame_id_numbers_present_flag fid
  if fid ≠ 0 then do
    let (dfl, r) ← read_f r 4
    let d := shset d SHKey.delta_frame_id_length_minus_2 dfl
    let (afl, r) ← read_f r 3
    pure (shset d SHKey.additional_frame_id_length_minus_1 afl, r)
  else pure (d, r)

/-- The fixed feature defaults of the reduced branch (source lines
1219-1227). -/
def sh_features_reduced (d : SHDict) : SHDict :=
  shset (shset (shset (shset (shset (shset (shset (shset (shset d
    SHKey.enable_interintra_compound 0) SHKey.enable_masked_compound 0)
    SHKey.enable_warped_motion 0) SHKey.enable_dual_filter 0) SHKey.enable_order_hint 0)
    SHKey.enable_jnt_comp 0) SHKey.enable_ref_frame_mvs 0)
    SHKey.seq_force_screen_content_tools 2) SHKey.seq_choose_integer_mv 2

/-- The screen-content/integer-mv section of the non-reduced feature branch
(source lines 1240-1253). -/
def sh_screen_content (d : SHDict) (r : BitReader) : Option (SHDict × BitReader) := do
  let (scsct, r) ← read_f r 1
  let d := shset d SHKey.seq_choose_screen_content_tools scsct
  let (d, sfsct, r) ←
    if scsct ≠ 0 then pure (shset d SHKey.seq_force_screen_content_tools 2, (2 : Nat), r)
    else do
      let (v, r) ← read_f r 1
      pure (shset d SHKey.seq_force_screen_content_tools v, v, r)
  if sfsct > 0 then do
    let (scim, r) ← read_f r 1
    let d := shset d SHKey.seq_choose_integer_mv scim
    if scim ≠ 0 then pure (shset d SHKey.seq_force_integer_mv 2, r)
    else do
      let (v, r) ← read_f r 1
      pure (shset d SHKey.seq_force_integer_mv v, r)
  else pure (shset d SHKey.seq_force_integer_mv 2, r)

/-- The non-reduced feature reads (source lines 1229-1255). -/
def sh_features_full (d : SHDict) (r : BitReader) : Option (SHDict × BitReader) := do
  let (eic, r) ← read_f r 1
  let d := shset d SHKey.enable_interintra_compound eic
  let (emc, r) ← read_f r 1
  let d := shset d SHKey.enable_masked_compound emc
  let (ewm, r) ← read_f r 1
  let d := shset d SHKey.enable_warped_motion ewm
  let (edf, r) ← read_f r 1
  let d := shset d SHKey.enable_dual_filter edf
  let (eoh, r) ← read_f r 1
  let d := shset d SHKey.enable_order_hint eoh
  let (d, r) ←
    if eoh ≠ 0 then do
      let (ejc, r) ← read_f r 1
      let d := shset d SHKey.enable_jnt_comp ejc
      let (erm, r) ← read_f r 1
      pure (shset d SHKey.enable_ref_frame_mvs erm, r)
    else pure (shset (shset d SHKey.enable_jnt_comp 0) SHKey.enable_ref_frame_mvs 0, r)
  let (d, r) ← sh_screen_content d r
  let eoh2 ← shget d SHKey.enable_order_hint
  if eoh2 ≠ 0 then do
    let (ohb, r) ← read_f r 3
    pure (shset d SHKey.order_hint_bits_minus_1 ohb, r)
  else pure (d, r)

/-- Everything of `_parse_av1_sequence_header_obu` before `color_config()`
(source lines 1172-1258), assembled from the section embeddings above. -/
def parse_seq_header_front (r : BitReader) : Option (SHDict × BitReader) := do
  let (sp, r) ← read_f r 3
  let d : SHDict := shset [] SHKey.seq_profile sp
  let (still, r) ← read_f r 1
  let d := shset d SHKey.still_picture still
  let (reduced, r) ← read_f r 1
  let d := shset d SHKey.reduced_still_picture_header reduced
  let (d, r) ← if reduced ≠ 0 then sh_reduced_defaults d r else sh_operating_points d r
  let (d, r) ← sh_frame_dims d r
  let (d, r) ← sh_frame_id reduced d r
  let (u128, r) ← read_f r 1
  let d := shset d SHKey.use_128x128_superblock u128
  let (efi, r) ← read_f r 1
  let d := shset d SHKey.enable_filter_intra efi
  let (eief, r) ← read_f r 1
  let d := shset d SHKey.enable_intra_edge_filter eief
  let (d, r) ← if reduced ≠ 0 then pure (sh_features_reduced d, r) else sh_features_full d r
  let (esr, r) ← read_f r 1
  let d := shset d SHKey.enable_superres esr
  let (ecdef, r) ← read_f r 1
  let d := shset d SHKey.enable_cdef ecdef
  let (er, r) ← read_f r 1
  pure (shset d SHKey.enable_restoration er, r)

/-- The profile-driven subsampling reads of `color_config()` (source lines
1299-1312), reached only when neither `mono_chrome` nor the
(1, 13, 0) colour-description shortcut applies. -/
def crs_profile_subsampling (d : SHDict) (r : BitReader) : Option (SHDict × BitReader) := do
  let sp ← shget d SHKey.seq_profile
  if sp = 0 then pure (shset (shset d SHKey.subsampling_x 1) SHKey.subsampling_y 1, r)
  else if sp = 1 then pure (shset (shset d SHKey.subsampling_x 0) SHKey.subsampling_y 0, r)
  else do
    -- parsed["twelve_bit"] raises KeyError when the key was never set
    let tb ← shget d SHKey.twelve_bit
    if tb ≠ 0 then do
      let (sx, r) ← read_f r 1
      let d := shset d SHKey.subsampling_x sx
      if sx ≠ 0 then do
        let (sy, r) ← read_f r 1
        pure (shset d SHKey.subsampling_y sy, r)
      else pure (shset d SHKey.subsampling_y 0, r)
    else pure (shset (shset d SHKey.subsampling_x 1) SHKey.subsampling_y 0, r)

/-- The branch of `color_config()` that sets `color_range`,
`subsampling_x/y` and possibly `chroma_sample_position` (source lines
1284-1314): `mono_chrome` forces 1,1; the (primaries=1, transfer=13,
matrix=0) combination sets full range and 0,0 without reading any bit;
otherwise a `color_range` bit is read and subsampling follows the
profile. -/
def read_color_range_and_subsampling (d : SHDict) (r : BitReader) :
    Option (SHDict × BitReader) := do
  let mono ← shget d SHKey.mono_chrome
  if mono ≠ 0 then do
    let (cr, r) ← read_f r 1
    let d := shset d SHKey.color_range cr
    let d := shset d SHKey.subsampling_x 1
    let d := shset d SHKey.subsampling_y 1
    pure (shset d SHKey.chroma_sample_position 0, r)
  else do
    let cp ← shget d SHKey.color_primaries
    let tc ← shget d SHKey.transfer_characteristics
    let mc ← shget d SHKey.matrix_coefficients
    if cp = 1 ∧ tc = 13 ∧ mc = 0 then
      pure (shset (shset (shset d SHKey.color_range 1) SHKey.subsampling_x 0) SHKey.subsampling_y 0, r)
    else do
      let (cr, r) ← read_f r 1
      let d := shset d SHKey.color_range cr
      let (d, r) ← crs_profile_subsampling d r
      let sx ← shget d SHKey.subsampling_x
      let sy ← shget d SHKey.subsampling_y
      if sx ≠ 0 ∧ sy ≠ 0 then do
        let (cspos, r) ← read_f r 2
        pure (shset d SHKey.chroma_sample_position cspos, r)
      else pure (d, r)

/-- The bit-depth and mono-chrome section of `color_config()` (source lines
1261-1274). -/
def cc_bitdepth_mono (d : SHDict) (r : BitReader) : Option (SHDict × BitReader) := do
  let (hbd, r) ← read_f r 1
  let d := shset d SHKey.high_bitdepth hbd
  let sp ← shget d SHKey.seq_profile
  let (d, bitdepth, r) ←
    if sp = 2 ∧ hbd ≠ 0 then do
      let (tb, r) ← read_f r 1
      let d := shset d SHKey.twelve_bit tb
      pure (d, if tb ≠ 0 then (12 : Nat) else 10, r)
    else if sp ≤ 2 then pure (d, if hbd ≠ 0 then (10 : Nat) else 8, r)
    else none  -- the local `bitdepth` is never assigned: UnboundLocalError
  let d := shset d SHKey.calculated_bitdepth bitdepth
  let (mono, r) ← if sp ≠ 1 then read_f r 1 else pure ((0 : Nat), r)
  let d := shset d SHKey.mono_chrome mono
  pure (shset d SHKey.calculated_numplanes (if mono ≠ 0 then 1 else 3), r)

/-- The colour-description section of `color_config()` (source lines
1275-1283). -/
def cc_description (d : SHDict) (r : BitReader) : Option (SHDict × BitReader) := do
  let (cdpf, r) ← read_f r 1
  let d := shset d SHKey.color_description_present_flag cdpf
  if cdpf ≠ 0 then do
    let (cp, r) ← read_f r 8
    let d := shset d SHKey.color_primaries cp
    let (tc, r) ← read_f r 8
    let d := shset d SHKey.transfer_characteristics tc
    let (mc, r) ← read_f r 8
    pure (shset d SHKey.matrix_coefficients mc, r)
  else
    pure (shset (shset (shset d SHKey.color_primaries 2) SHKey.transfer_characteristics 2)
      SHKey.matrix_coefficients 2, r)

/-- The `color_config()` section of `_parse_av1_sequence_header_obu`
(source lines 1260-1316). -/
def color_config (d : SHDict) (r : BitReader) : Option (SHDict × BitReader) := do
  let (d, r) ← cc_bitdepth_mono d r
  let (d, r) ← cc_description d r
  let (d, r) ← read_color_range_and_subsampling d r
  let (suv, r) ← read_f r 1
  pure (shset d SHKey.separate_uv_delta_q suv, r)

/-- Embedding of `_parse_av1_sequence_header_obu`: the front section,
`color_config()`, then `film_grain_params_present`. -/
def parse_av1_sequence_header_obu (r : BitReader) : Option (SHDict × BitReader) := do
  let (d, r) ← parse_seq_header_front r
  let (d, r) ← color_config d r
  let (fg, r) ← read_f r 1
  pure (shset d SHKey.film_grain_params_present fg, r)

theorem shget_shset_same (d : SHDict) (k : SHKey) (v : Nat) :
    shget (shset d k v) k = some v := by
  simp [shget, shset, List.find?]

theorem shget_shset_ne (d : SHDict) (k k2 : SHKey) (v : Nat) (h : k ≠ k2) :
    shget (shset d k v) k2 = shget d k2 := by
  have hb : (k == k2) = false := by simp [h]
  simp [shget, shset, List.find?, hb]

theorem crs_shortcut (d : SHDict) (r : BitReader) (res : SHDict × BitReader)
    (hm : shget d SHKey.mono_chrome = some 0)
    (hp : shget d SHKey.color_primaries = some 1)
    (ht : shget d SHKey.transfer_characteristics = some 13)
    (hx : shget d SHKey.matrix_coefficients = some 0)
    (hrun : read_color_range_and_subsampling d r = some res) :
    res.2 = r ∧ shget res.1 SHKey.color_range = some 1 ∧
    shget res.1 SHKey.subsampling_x = some 0 ∧ shget res.1 SHKey.subsampling_y = some 0 := by
  unfold read_color_range_and_subsampling at hrun
  simp only [Option.bind_eq_bind] at hrun
  rw [Option.bind_eq_some] at hrun
  obtain ⟨mono, hmono, hrun⟩ := hrun
  rw [hm] at hmono
  obtain rfl : mono = 0 := by exact (Option.some.inj hmono).symm
  rw [if_neg (by omega)] at hrun
  rw [Option.bind_eq_some] at hrun
  obtain ⟨cp, hcp, hrun⟩ := hrun
  rw [hp] at hcp
  obtain rfl : cp = 1 := (Option.some.inj hcp).symm
  rw [Option.bind_eq_some] at hrun
  obtain ⟨tc, htc, hrun⟩ := hrun
  rw [ht] at htc
  obtain rfl : tc = 13 := (Option.some.inj htc).symm
  rw [Option.bind_eq_some] at hrun
  obtain ⟨mc, hmc, hrun⟩ := hrun
  rw [hx] at hmc
  obtain rfl : mc = 0 := (Option.some.inj hmc).symm
  rw [if_pos ⟨rfl, rfl, rfl⟩] at hrun
  have hres : res = (shset (shset (shset d SHKey.color_range 1) SHKey.subsampling_x 0)
      SHKey.subsampling_y 0, r) := by
    simpa using hrun.symm
  subst hres
  refine ⟨rfl, ?_, ?_, ?_⟩
  · rw [shget_shset_ne _ _ _ _ (by decide), shget_shset_ne _ _ _ _ (by decide),
      shget_shset_same]
  · rw [shget_shset_ne _ _ _ _ (by decide), shget_shset_same]
  · rw [shget_shset_same]

theorem crs_ps_preserves (d : SHDict) (r : BitReader) (res : SHDict × BitReader)
    (hrun : crs_profile_subsampling d r = some res) (k : SHKey)
    (h2 : k ≠ SHKey.subsampling_x) (h3 : k ≠ SHKey.subsampling_y) :
    shget res.1 k = shget d k := by
  unfold crs_profile_subsampling at hrun
  simp only [Option.bind_eq_bind] at hrun
  rw [Option.bind_eq_some] at hrun
  obtain ⟨sp, hsp, hrun⟩ := hrun
  by_cases h0 : sp = 0
  · rw [if_pos h0] at hrun
    have hres : res = (shset (shset d SHKey.subsampling_x 1) SHKey.subsampling_y 1, r) := by
      simpa using hrun.symm
    subst hres
    rw [shget_shset_ne _ _ _ _ (Ne.symm h3), shget_shset_ne _ _ _ _ (Ne.symm h2)]
  · rw [if_neg h0] at hrun
    by_cases h1 : sp = 1
    · rw [if_pos h1] at hrun
      have hres : res = (shset (shset d SHKey.subsampling_x 0) SHKey.subsampling_y 0, r) := by
        simpa using hrun.symm
      subst hres
      rw [shget_shset_ne _ _ _ _ (Ne.symm h3), shget_shset_ne _ _ _ _ (Ne.symm h2)]
    · rw [if_neg h1] at hrun
      rw [Option.bind_eq_some] at hrun
      obtain ⟨tb, htb, hrun⟩ := hrun
      by_cases htb0 : tb ≠ 0
      · rw [if_pos htb0] at hrun
        rw [Option.bind_eq_some] at hrun
        obtain ⟨⟨sx, r2⟩, hsx, hrun⟩ := hrun
        dsimp only at hrun
        by_cases hsx0 : sx ≠ 0
        · rw [if_pos hsx0] at hrun
          rw [Option.bind_eq_some] at hrun
          obtain ⟨⟨sy, r3⟩, hsy, hrun⟩ := hrun
          dsimp only at hrun
          have hres : res = (shset (shset d SHKey.subsampling_x sx) SHKey.subsampling_y sy, r3) := by
            simpa using hrun.symm
          subst hres
          rw [shget_shset_ne _ _ _ _ (Ne.symm h3), shget_shset_ne _ _ _ _ (Ne.symm h2)]
        · rw [if_neg hsx0] at hrun
          have hres : res = (shset (shset d SHKey.subsampling_x sx) SHKey.subsampling_y 0, r2) := by
            simpa using hrun.symm
          subst hres
          rw [shget_shset_ne _ _ _ _ (Ne.symm h3), shget_shset_ne _ _ _ _ (Ne.symm h2)]
      · rw [if_neg htb0] at hrun
        have hres : res = (shset (shset d SHKey.subsampling_x 1) SHKey.subsampling_y 0, r) := by
          simpa using hrun.symm
        subst hres
        rw [shget_shset_ne _ _ _ _ (Ne.symm h3), shget_shset_ne _ _ _ _ (Ne.symm h2)]

theorem crs_preserves (d : SHDict) (r : BitReader) (res : SHDict × BitReader)
    (hrun : read_color_range_and_subsampling d r = some res) (k : SHKey)
    (h1 : k ≠ SHKey.color_range) (h2 : k ≠ SHKey.subsampling_x) (h3 : k ≠ SHKey.subsampling_y)
    (h4 : k ≠ SHKey.chroma_sample_position) :
    shget res.1 k = shget d k := by
  unfold read_color_range_and_subsampling at hrun
  simp only [Option.bind_eq_bind] at hrun
  rw [Option.bind_eq_some] at hrun
  obtain ⟨mono, hmono, hrun⟩ := hrun
  by_cases hm0 : mono ≠ 0
  · rw [if_pos hm0] at hrun
    rw [Option.bind_eq_some] at hrun
    obtain ⟨⟨cr, r2⟩, hcr, hrun⟩ := hrun
    dsimp only at hrun
    have hres : res = (shset (shset (shset (shset d SHKey.color_range cr)
        SHKey.subsampling_x 1) SHKey.subsampling_y 1) SHKey.chroma_sample_position 0, r2) := by
      simpa using hrun.symm
    subst hres
    rw [shget_shset_ne _ _ _ _ (Ne.symm h4), shget_shset_ne _ _ _ _ (Ne.symm h3),
      shget_shset_ne _ _ _ _ (Ne.symm h2), shget_shset_ne _ _ _ _ (Ne.symm h1)]
  · rw [if_neg hm0] at hrun
    rw [Option.bind_eq_some] at hrun
    obtain ⟨cp, hcp, hrun⟩ := hrun
    rw [Option.bind_eq_some] at hrun
    obtain ⟨tc, htc, hrun⟩ := hrun
    rw [Option.bind_eq_some] at hrun
    obtain ⟨mc, hmc, hrun⟩ := hrun
    by_cases htriple : cp = 1 ∧ tc = 13 ∧ mc = 0
    · rw [if_pos htriple] at hrun
      have hres : res = (shset (shset (shset d SHKey.color_range 1) SHKey.subsampling_x 0)
          SHKey.subsampling_y 0, r) := by
        simpa using hrun.symm
      subst hres
      rw [shget_shset_ne _ _ _ _ (Ne.symm h3), shget_shset_ne _ _ _ _ (Ne.symm h2),
        shget_shset_ne _ _ _ _ (Ne.symm h1)]
    · rw [if_neg htriple] at hrun
      rw [Option.bind_eq_some] at hrun
      obtain ⟨⟨cr, r2⟩, hcr, hrun⟩ := hrun
      dsimp only at hrun
      rw [Option.bind_eq_some] at hrun
      obtain ⟨⟨d6, r6⟩, hps, hrun⟩ := hrun
      dsimp only at hrun
      have hkeep : shget d6 k = shget d k := by
        rw [crs_ps_preserves (shset d SHKey.color_range cr) r2 (d6, r6) hps k h2 h3]
        exact shget_shset_ne _ _ _ _ (Ne.symm h1)
      rw [Option.bind_eq_some] at hrun
      obtain ⟨sx, hsx, hrun⟩ := hrun
      rw [Option.bind_eq_some] at hrun
      obtain ⟨sy, hsy, hrun⟩ := hrun
      by_cases hss : sx ≠ 0 ∧ sy ≠ 0
      · rw [if_pos hss] at hrun
        rw [Option.bind_eq_some] at hrun
        obtain ⟨⟨cspos, r7⟩, hcs, hrun⟩ := hrun
        dsimp only at hrun
        have hres : res = (shset d6 SHKey.chroma_sample_position cspos, r7) := by
          simpa using hrun.symm
        subst hres
        rw [shget_shset_ne _ _ _ _ (Ne.symm h4)]
        exact hkeep
      · rw [if_neg hss] at hrun
        have hres : res = (d6, r6) := by simpa using hrun.symm
        subst hres
        exact hkeep

/-- C9: for every AV1 sequence header with `mono_chrome = 0` whose coded
colour description is primaries 1, transfer 13, matrix 0, the decoder
produces `color_range = 1`, `subsampling_x = 0`, `subsampling_y = 0`; and
(last conjunct) the branch computing those fields consumes no bits: the
reader state it returns is exactly the one it received. -/
theorem nclx_shortcut_color_config (r0 r1 : BitReader) (d : SHDict)
    (hparse : parse_av1_sequence_header_obu r0 = some (d, r1))
    (hm : shget d SHKey.mono_chrome = some 0)
    (hp : shget d SHKey.color_primaries = some 1)
    (ht : shget d SHKey.transfer_characteristics = some 13)
    (hx : shget d SHKey.matrix_coefficients = some 0) :
    shget d SHKey.color_range = some 1 ∧ shget d SHKey.subsampling_x = some 0 ∧
    shget d SHKey.subsampling_y = some 0 ∧
    (∀ (p : SHDict) (r : BitReader) (res : SHDict × BitReader),
      shget p SHKey.mono_chrome = some 0 → shget p SHKey.color_primaries = some 1 →
      shget p SHKey.transfer_characteristics = some 13 →
      shget p SHKey.matrix_coefficients = some 0 →
      read_color_range_and_subsampling p r = some res →
      res.2 = r ∧ shget res.1 SHKey.color_range = some 1 ∧
      shget res.1 SHKey.subsampling_x = some 0 ∧ shget res.1 SHKey.subsampling_y = some 0) := by
  unfold parse_av1_sequence_header_obu at hparse
  simp only [Option.bind_eq_bind] at hparse
  rw [Option.bind_eq_some] at hparse
  obtain ⟨⟨d1, ra⟩, hfront, hparse⟩ := hparse
  dsimp only at hparse
  rw [Option.bind_eq_some] at hparse
  obtain ⟨⟨d2, rb⟩, hcc, hparse⟩ := hparse
  dsimp only at hparse
  rw [Option.bind_eq_some] at hparse
  obtain ⟨⟨fg, rc⟩, hfg, hparse⟩ := hparse
  dsimp only at hparse
  simp only [Option.pure_def, Option.some.injEq, Prod.mk.injEq] at hparse
  obtain ⟨hd, hr1⟩ := hparse
  unfold color_config at hcc
  simp only [Option.bind_eq_bind] at hcc
  rw [Option.bind_eq_some] at hcc
  obtain ⟨⟨d3, r3⟩, hbdm, hcc⟩ := hcc
  dsimp only at hcc
  rw [Option.bind_eq_some] at hcc
  obtain ⟨⟨d4, r4⟩, hdesc, hcc⟩ := hcc
  dsimp only at hcc
  rw [Option.bind_eq_some] at hcc
  obtain ⟨⟨dX, rX⟩, hcrs, hcc⟩ := hcc
  dsimp only at hcc
  rw [Option.bind_eq_some] at hcc
  obtain ⟨⟨suv, r5⟩, hsuv, hcc⟩ := hcc
  dsimp only at hcc
  simp only [Option.pure_def, Option.some.injEq, Prod.mk.injEq] at hcc
  obtain ⟨hd2, hrb⟩ := hcc
  subst hd2
  subst hd
  have hmX : shget dX SHKey.mono_chrome = some 0 := by
    rw [shget_shset_ne _ _ _ _ (by decide), shget_shset_ne _ _ _ _ (by decide)] at hm
    exact hm
  have hpX : shget dX SHKey.color_primaries = some 1 := by
    rw [shget_shset_ne _ _ _ _ (by decide), shget_shset_ne _ _ _ _ (by decide)] at hp
    exact hp
  have htX : shget dX SHKey.transfer_characteristics = some 13 := by
    rw [shget_shset_ne _ _ _ _ (by decide), shget_shset_ne _ _ _ _ (by decide)] at ht
    exact ht
  have hxX : shget dX SHKey.matrix_coefficients = some 0 := by
    rw [shget_shset_ne _ _ _ _ (by decide), shget_shset_ne _ _ _ _ (by decide)] at hx
    exact hx
  have hm4 : shget d4 SHKey.mono_chrome = some 0 := by
    rw [← crs_preserves d4 r4 (dX, rX) hcrs SHKey.mono_chrome (by decide) (by decide)
      (by decide) (by decide)]
    exact hmX
  have hp4 : shget d4 SHKey.color_primaries = some 1 := by
    rw [← crs_preserves d4 r4 (dX, rX) hcrs SHKey.color_primaries (by decide) (by decide)
      (by decide) (by decide)]
    exact hpX
  have ht4 : shget d4 SHKey.transfer_characteristics = some 13 := by
    rw [← crs_preserves d4 r4 (dX, rX) hcrs SHKey.transfer_characteristics (by decide)
      (by decide) (by decide) (by decide)]
    exact htX
  have hx4 : shget d4 SHKey.matrix_coefficients = some 0 := by
    rw [← crs_preserves d4 r4 (dX, rX) hcrs SHKey.matrix_coefficients (by decide) (by decide)
      (by decide) (by decide)]
    exact hxX
  obtain ⟨-, hcr, hsx, hsy⟩ := crs_shortcut d4 r4 (dX, rX) hm4 hp4 ht4 hx4 hcrs
  refine ⟨?_, ?_, ?_, fun p r res a b c e f => crs_shortcut p r res a b c e f⟩
  · rw [shget_shset_ne _ _ _ _ (by decide), shget_shset_ne _ _ _ _ (by decide)]
    exact hcr
  · rw [shget_shset_ne _ _ _ _ (by decide), shget_shset_ne _ _ _ _ (by decide)]
    exact hsx
  · rw [shget_shset_ne _ _ _ _ (by decide), shget_shset_ne _ _ _ _ (by decide)]
    exact hsy

/-- Witness for C9 on a concrete 7-byte sequence header (reduced still
picture, profile 0, colour description 1/13/0): the decoder yields full
range and 4:4:4 subsampling. -/
theorem nclx_shortcut_color_config_witness :
    ∃ dr, parse_av1_sequence_header_obu ⟨[24, 0, 0, 8, 8, 104, 0], 0, 0⟩ = some dr ∧
      shget dr.1 SHKey.color_range = some 1 ∧ shget dr.1 SHKey.subsampling_x = some 0 ∧
      shget dr.1 SHKey.subsampling_y = some 0 := by
  cases hdr : parse_av1_sequence_header_obu ⟨[24, 0, 0, 8, 8, 104, 0], 0, 0⟩ with
  | none =>
    have hs : (parse_av1_sequence_header_obu ⟨[24, 0, 0, 8, 8, 104, 0], 0, 0⟩).isSome
        = true := by rfl
    rw [hdr] at hs
    cases hs
  | some dr =>
    have hm : shget dr.1 SHKey.mono_chrome = some 0 := by
      have hev : (parse_av1_sequence_header_obu ⟨[24, 0, 0, 8, 8, 104, 0], 0, 0⟩).map
          (fun x => shget x.1 SHKey.mono_chrome) = some (some 0) := by rfl
      rw [hdr] at hev
      simpa using hev
    have hp : shget dr.1 SHKey.color_primaries = some 1 := by
      have hev : (parse_av1_sequence_header_obu ⟨[24, 0, 0, 8, 8, 104, 0], 0, 0⟩).map
          (fun x => shget x.1 SHKey.color_primaries) = some (some 1) := by rfl
      rw [hdr] at hev
      simpa using hev
    have ht : shget dr.1 SHKey.transfer_characteristics = some 13 := by
      have hev : (parse_av1_sequence_header_obu ⟨[24, 0, 0, 8, 8, 104, 0], 0, 0⟩).map
          (fun x => shget x.1 SHKey.transfer_characteristics) = some (some 13) := by rfl
      rw [hdr] at hev
      simpa using hev
    have hx : shget dr.1 SHKey.matrix_coefficients = some 0 := by
      have hev : (parse_av1_sequence_header_obu ⟨[24, 0, 0, 8, 8, 104, 0], 0, 0⟩).map
          (fun x => shget x.1 SHKey.matrix_coefficients) = some (some 0) := by rfl
      rw [hdr] at hev
      simpa using hev
    have hk := nclx_shortcut_color_config ⟨[24, 0, 0, 8, 8, 104, 0], 0, 0⟩ dr.2 dr.1
      (by rw [hdr]) hm hp ht hx
    exact ⟨dr, rfl, hk.1, hk.2.1, hk.2.2.1⟩
